import Mathlib

/-!
Verification of the Tokyo epidemic-surveillance data collector.

This file gives a shallow embedding, in Lean 4, of the parts of the
repository relevant to the period calendar, the gap analyzer, the retrying
fetch client, the content-addressed storage manager and the collector's
run statistics, together with theorems settling the specification claims
about them.

Conventions of the embedding:
* Python machine integers are `Nat`/`Int`; Python byte strings are
  `List Nat`; Python `str` is `String`.
* `datetime.now()` is passed explicitly as a `NowClock` value.
* `float` delay arithmetic is modelled over `ℚ` (all constants involved,
  1.0, 2.0, 10.0, 0.5, are exactly representable, and the operations used,
  `+`, `*`, `min`, are exact on them); the `random.uniform(0, 0.5)` jitter
  sample is passed explicitly as a parameter.
* `hashlib.sha256(data).hexdigest()` is modelled as an injective content
  fingerprint of the payload (the identity on the byte list): the only
  property of SHA-256 the control flow depends on is that fingerprint
  equality coincides with payload equality.
* File-system state is explicit: a `StorageState` record carrying the data
  directory, the metadata directory, the in-memory hash index and the set
  of live temporary files; I/O failure during the atomic payload write is
  injected through a `WriteFail` parameter.
-/

/- ===================================================================
   Part 1. Period calendar: CPython `date.isocalendar`, embedded.
   The repository calls `date(year, 12, 28).isocalendar()[1]`
   (src/src/fetchers/enhanced_fetcher.py `_get_weeks_in_year`,
   src/scripts/check_missing.py `weeks_in_year`,
   src/scripts/fetch_data.py `_get_weeks_in_year`).
   =================================================================== -/

/-- CPython `datetime._is_leap`: `year % 4 == 0 and (year % 100 != 0 or year % 400 == 0)`. -/
def isLeap (year : Nat) : Bool :=
  year % 4 == 0 && (year % 100 != 0 || year % 400 == 0)

/-- Days before the first day of month `m` (1-based) in a year, as in
CPython's `_days_before_month` (cumulative month lengths, plus the leap
day after February). -/
def daysBeforeMonth (leap : Bool) (m : Nat) : Nat :=
  (match m with
   | 1 => 0 | 2 => 31 | 3 => 59 | 4 => 90 | 5 => 120 | 6 => 151
   | 7 => 181 | 8 => 212 | 9 => 243 | 10 => 273 | 11 => 304 | _ => 334)
  + (if leap && decide (2 < m) then 1 else 0)

/-- Day-of-year of `(year, m, d)` (Jan 1 is day 1). -/
def dayOfYear (year m d : Nat) : Nat :=
  daysBeforeMonth (isLeap year) m + d

/-- CPython `_days_before_year`: days in the proleptic Gregorian calendar
before January 1 of `year` (so the ordinal of Jan 1, year 1, is 1). -/
def daysBeforeYear (year : Nat) : Nat :=
  365 * (year - 1) + (year - 1) / 4 - (year - 1) / 100 + (year - 1) / 400

/-- CPython `date.toordinal()`. -/
def toOrdinal (year m d : Nat) : Nat :=
  daysBeforeYear year + dayOfYear year m d

/-- CPython `datetime._isoweek1monday(year)`: the ordinal of the Monday
starting ISO week 1 of `year` (THURSDAY = 3, Monday-indexed weekdays). -/
def isoweek1monday (year : Nat) : Int :=
  let firstday : Int := toOrdinal year 1 1
  let firstweekday : Int := (firstday + 6) % 7
  let week1monday : Int := firstday - firstweekday
  if 3 < firstweekday then week1monday + 7 else week1monday

/-- CPython `date.isocalendar()`, returning `(iso_year, iso_week, iso_weekday)`.
Python `divmod` on ints is floor division, which for the positive divisor 7
agrees with Euclidean division, i.e. with `Int` `/` and `%` in Lean. -/
def isocalendar (year m d : Nat) : Nat × Nat × Nat :=
  let today : Int := toOrdinal year m d
  let week1monday := isoweek1monday year
  let week : Int := (today - week1monday) / 7
  let day : Int := (today - week1monday) % 7
  if week < 0 then
    let week1monday2 := isoweek1monday (year - 1)
    (year - 1, ((today - week1monday2) / 7 + 1).toNat, ((today - week1monday2) % 7 + 1).toNat)
  else if 52 ≤ week ∧ isoweek1monday (year + 1) ≤ today then
    (year + 1, 1, (day + 1).toNat)
  else
    (year, (week + 1).toNat, (day + 1).toNat)

/-- `EnhancedEpidemicDataFetcher._get_weeks_in_year` /
`check_missing.weeks_in_year`: `date(year, 12, 28).isocalendar()[1]`. -/
def get_weeks_in_year (year : Nat) : Nat :=
  (isocalendar year 12 28).2.1

/- ===================================================================
   Part 2. String helpers (Python `str` operations used by the code),
   and the gap analyzer of `EnhancedEpidemicDataFetcher`
   (src/src/fetchers/enhanced_fetcher.py).
   =================================================================== -/

/-- Whether character list `n` occurs at the head of `l` (used to embed
Python's substring test). -/
def charsBeginWith : List Char → List Char → Bool
  | [], _ => true
  | _ :: _, [] => false
  | a :: as, b :: bs => a == b && charsBeginWith as bs

/-- Whether character list `n` occurs somewhere inside `l`. -/
def charsContain (n : List Char) : List Char → Bool
  | [] => charsBeginWith n []
  | b :: bs => charsBeginWith n (b :: bs) || charsContain n bs

/-- Python's `needle in haystack` substring test. -/
def strContains (needle haystack : String) : Bool :=
  charsContain needle.data haystack.data

/-- Python `str.split(sep)` for a one-character separator: splits at every
occurrence, keeping empty fields (`"a__b".split("_") == ["a", "", "b"]`,
`"".split("_") == [""]`). -/
def splitOnChar (c : Char) : List Char → List (List Char)
  | [] => [[]]
  | x :: xs =>
    match splitOnChar c xs with
    | [] => [[]]
    | h :: t => if x == c then [] :: h :: t else (x :: h) :: t

/-- `pathlib.Path.stem` for the plain file names this repository produces:
the name with everything from the last `'.'` on removed (a name without a
`'.'` is returned unchanged). -/
def pathStem (name : String) : String :=
  match (splitOnChar '.' name.data).reverse with
  | [] => name
  | [_] => name
  | _ :: rest => String.mk ((rest.reverse.map (String.mk)).foldr
      (fun part acc => if acc = "" then part else part ++ "." ++ acc) "").data

/-- `FetchParams` (src/src/fetchers/enhanced_fetcher.py): the POST
parameters identifying one (year, sub-period) request.  All fields are
strings, exactly as in the Python dataclass. -/
structure FetchParams where
  start_year : String
  start_sub_period : String
  end_year : String
  end_sub_period : String
  data_type : String
  report_type : String
  pref_code : String := "13"
  hc_code : String := "00"
  epid_code : String := "00"
  total_mode : String := "0"
deriving DecidableEq, Repr

/-- `EnhancedEpidemicDataFetcher._get_report_type`: the data-type →
report-type lookup table, defaulting to `"0"`. -/
def get_report_type (data_type : String) : String :=
  if data_type = "sentinel_weekly_gender" then "1"
  else if data_type = "sentinel_weekly_age" then "0"
  else if data_type = "sentinel_weekly_health_center" then "2"
  else if data_type = "sentinel_weekly_medical_district" then "5"
  else if data_type = "sentinel_monthly_gender" then "15"
  else if data_type = "sentinel_monthly_age" then "10"
  else if data_type = "sentinel_monthly_health_center" then "11"
  else if data_type = "sentinel_monthly_medical_district" then "12"
  else if data_type = "notifiable_weekly" then "20"
  else "0"

/-- `EnhancedEpidemicDataFetcher._parse_existing_files`: for each file
whose name contains `data_type`, split the stem on `'_'`; if it has at
least 5 fields, take the fields at positions `-4` and `-3` as the year and
period strings.  The Python `try`/`except (IndexError, ValueError)` guard
can never fire (nothing in the guarded block converts to `int`), so every
file passing the length test contributes an entry. -/
def parse_existing_files (files : List String) (data_type : String) :
    List FetchParams :=
  files.filterMap (fun file =>
    if strContains data_type file then
      let parts := splitOnChar '_' (pathStem file).data
      if 5 ≤ parts.length then
        let year := String.mk (parts.getD (parts.length - 4) [])
        let period := String.mk (parts.getD (parts.length - 3) [])
        some { start_year := year, start_sub_period := period,
               end_year := year, end_sub_period := period,
               data_type := data_type,
               report_type := get_report_type data_type }
      else none
    else none)

/-- `EnhancedEpidemicDataFetcher._is_params_in_existing`: membership by
comparing `start_year`, `start_sub_period` and `data_type` as strings. -/
def is_params_in_existing (params : FetchParams)
    (existing : List FetchParams) : Bool :=
  existing.any (fun e =>
    params.start_year == e.start_year &&
    params.start_sub_period == e.start_sub_period &&
    params.data_type == e.data_type)

/-- The fields of `datetime.now()` that `get_missing_data` reads, passed
explicitly. -/
structure NowClock where
  year : Nat
  month : Nat
  isoWeek : Nat

/-- Python `range(a, b + 1)` as a list. -/
def natRangeIncl (a b : Nat) : List Nat :=
  (List.range (b + 1 - a)).map (a + ·)

/-- `EnhancedEpidemicDataFetcher.get_missing_data` (the version under
src/, which takes no explicit target-period lists): enumerate, for each
year of the range, the periods up to the cadence's maximum (truncated at
the current month / ISO week in the current year), and keep the ones whose
parameters are not found among the parsed existing files. -/
def get_missing_data (data_type : String) (existing_files : List String)
    (start_year end_year : Nat) (now : NowClock) : List FetchParams :=
  let existing_params := parse_existing_files existing_files data_type
  (natRangeIncl start_year end_year).flatMap (fun year =>
    if strContains "monthly" data_type then
      let max_period := if year < now.year then 12 else now.month
      ((List.range max_period).map (· + 1)).filterMap (fun month =>
        let params : FetchParams :=
          { start_year := toString year, start_sub_period := toString month,
            end_year := toString year, end_sub_period := toString month,
            data_type := data_type,
            report_type := get_report_type data_type }
        if is_params_in_existing params existing_params then none
        else some params)
    else
      let weeks := get_weeks_in_year year
      let max_period := if year = now.year then min weeks now.isoWeek else weeks
      ((List.range max_period).map (· + 1)).filterMap (fun week =>
        let params : FetchParams :=
          { start_year := toString year, start_sub_period := toString week,
            end_year := toString year, end_sub_period := toString week,
            data_type := data_type,
            report_type := get_report_type data_type }
        if is_params_in_existing params existing_params then none
        else some params))

/-- Modelled from the spec: the repository's current `get_missing_data`
accepts explicit target-period lists (`target_weeks` / `target_months`,
exercised by src/tests/test_target_filtering.py), but that version of the
fetcher is not present under src/ — the copy in
src/src/fetchers/enhanced_fetcher.py predates the feature and has no such
parameters.  Following the spec (§4.4): when an explicit include-list is
given, first validate that every value is within the cadence's legal range
(weeks in [1, 53], months in [1, 12]), rejecting with a validation error
otherwise; then restrict the gap report to the listed periods. -/
def get_missing_data_with_targets (data_type : String)
    (existing_files : List String) (start_year end_year : Nat)
    (target_weeks target_months : Option (List Nat)) (now : NowClock) :
    Except String (List FetchParams) :=
  let base := get_missing_data data_type existing_files start_year end_year now
  if strContains "monthly" data_type then
    match target_months with
    | none => .ok base
    | some tms =>
      if tms.all (fun m => 1 ≤ m && m ≤ 12) then
        .ok (base.filter (fun p => tms.any (fun m => toString m == p.start_sub_period)))
      else .error "invalid month numbers in target_months"
  else
    match target_weeks with
    | none => .ok base
    | some tws =>
      if tws.all (fun w => 1 ≤ w && w ≤ 53) then
        .ok (base.filter (fun p => tws.any (fun w => toString w == p.start_sub_period)))
      else .error "invalid week numbers in target_weeks"

/- ===================================================================
   Part 3. Retrying fetch client: `DataFetcherConfig`, `RetryHandler`
   (src/src/fetchers/enhanced_fetcher.py) and
   `TokyoEpidemicSurveillanceFetcher._post_request`
   (src/src/fetchers/base_fetcher.py).
   =================================================================== -/

/-- `DataFetcherConfig`: the fetcher configuration.  Delay fields are
modelled over `ℚ`. -/
structure DataFetcherConfig where
  max_retries : Nat := 3
  base_delay : ℚ := 1
  max_delay : ℚ := 60
  timeout : Nat := 30
  rate_limit_delay : ℚ := 1
  enable_jitter : Bool := true

/-- `RetryHandler.calculate_delay`: exponential backoff
`min(base_delay * 2 ** attempt, max_delay)`, plus, when jitter is enabled,
the current `random.uniform(0, 0.5)` sample, passed here as `jitter`. -/
def calculate_delay (config : DataFetcherConfig) (attempt : Nat)
    (jitter : ℚ) : ℚ :=
  let delay := min (config.base_delay * 2 ^ attempt) config.max_delay
  if config.enable_jitter then delay + jitter else delay

/-- The Python exception classes observable by
`RetryHandler.execute_with_retry`'s `except` clauses: `requests` `Timeout`,
the built-in `ConnectionError`, `requests` `HTTPError` (carrying
`response.status_code`), and any other exception (carrying its message). -/
inductive PyExc where
  | timeout : PyExc
  | connectionError : PyExc
  | httpError (status_code : Nat) : PyExc
  | genericError (msg : String) : PyExc
deriving DecidableEq, Repr

/-- Whether `execute_with_retry`'s first `except` clause
(`except (Timeout, ConnectionError, HTTPError)`) catches the exception. -/
def caughtForRetry : PyExc → Bool
  | .timeout => true
  | .connectionError => true
  | .httpError _ => true
  | .genericError _ => false

/-- The `isinstance(e, HTTPError) and e.response.status_code == 429` test. -/
def isRateLimitError : PyExc → Bool
  | .httpError 429 => true
  | _ => false

/-- The delay `execute_with_retry` computes after a caught exception at
`attempt`: `calculate_delay(attempt + 1) * 2` for a 429 `HTTPError`
("wait longer for rate-limit errors"), `calculate_delay(attempt)`
otherwise.  `jitterAt` supplies the jitter sample of each
`calculate_delay` call. -/
def retry_delay (config : DataFetcherConfig) (e : PyExc) (attempt : Nat)
    (jitterAt : Nat → ℚ) : ℚ :=
  if isRateLimitError e then
    calculate_delay config (attempt + 1) (jitterAt (attempt + 1)) * 2
  else
    calculate_delay config attempt (jitterAt attempt)

/-- The observable outcome of `execute_with_retry`: the returned value or
the exception finally raised, the number of attempts actually made, and
the backoff delays slept between attempts. -/
structure RetryTrace (α : Type) where
  result : Except PyExc α
  attemptsMade : Nat
  sleeps : List ℚ
deriving Repr

/-- The loop body of `RetryHandler.execute_with_retry`, for
`attempt = max_retries - fuel` upward: a caught exception is retried with
a backoff sleep while `attempt < max_retries` (that is, while fuel
remains) and re-raised on the last attempt; any other exception is
re-raised immediately. -/
def execute_with_retry_go {α : Type} (config : DataFetcherConfig)
    (outcomes : Nat → Except PyExc α) (jitterAt : Nat → ℚ)
    (attempt : Nat) (fuel : Nat) (sleeps : List ℚ) : RetryTrace α :=
  match outcomes attempt with
  | .ok v => { result := .ok v, attemptsMade := attempt + 1, sleeps := sleeps }
  | .error e =>
    if caughtForRetry e then
      let delay := retry_delay config e attempt jitterAt
      match fuel with
      | fuel2 + 1 =>
        execute_with_retry_go config outcomes jitterAt (attempt + 1) fuel2
          (sleeps ++ [delay])
      | 0 => { result := .error e, attemptsMade := attempt + 1, sleeps := sleeps }
    else { result := .error e, attemptsMade := attempt + 1, sleeps := sleeps }

/-- `RetryHandler.execute_with_retry`: run the wrapped call for attempts
`0 .. max_retries`, where `outcomes n` is what the call does on attempt
`n`. -/
def execute_with_retry {α : Type} (config : DataFetcherConfig)
    (outcomes : Nat → Except PyExc α) (jitterAt : Nat → ℚ) : RetryTrace α :=
  execute_with_retry_go config outcomes jitterAt 0 config.max_retries []

/-- The transport-level outcome of one `session.post` call: either the
transport raises an exception, or a response with a status code and body
arrives. -/
inductive NetResult where
  | raisesExc (e : PyExc) : NetResult
  | response (status_code : Nat) (body : List Nat) : NetResult

/-- `TokyoEpidemicSurveillanceFetcher._post_request`: returns the body on
status 200 and otherwise raises the plain
`Exception(f"Request failed with status code: ...")` — not an
`HTTPError`. -/
def post_request (net : NetResult) : Except PyExc (List Nat) :=
  match net with
  | .raisesExc e => .error e
  | .response status_code body =>
    if status_code = 200 then .ok body
    else .error (.genericError
      ("Request failed with status code: " ++ toString status_code))

/- ===================================================================
   Part 4. Content-addressed storage: `StorageManager`
   (src/src/managers/storage_manager.py).
   =================================================================== -/

/-- Payload bytes. -/
abbrev Bytes := List Nat

/-- `hashlib.sha256(data).hexdigest()`, modelled as an injective content
fingerprint (the identity on the byte list): the storage control flow
depends on SHA-256 only through equality of digests of payloads, which
under the standard collision-freeness idealization coincides with equality
of the payloads themselves. -/
def sha256_hexdigest (data : Bytes) : Bytes := data

/-- A value of the hash index: Python stores either a single path string
or a list of path strings under each digest. -/
inductive IndexEntry where
  | single (path : String) : IndexEntry
  | multi (paths : List String) : IndexEntry
deriving DecidableEq, Repr

/-- The paths recorded in an index entry. -/
def IndexEntry.locations : IndexEntry → List String
  | .single p => [p]
  | .multi l => l

/-- The in-memory `hash_index` dict, as an insertion-ordered association
list with unique keys. -/
abbrev HashIndex := List (Bytes × IndexEntry)

/-- Python dict lookup `d.get(k)` on the association list. -/
def idxLookup (idx : HashIndex) (h : Bytes) : Option IndexEntry :=
  match idx with
  | [] => none
  | (k, e) :: rest => if k = h then some e else idxLookup rest h

/-- Python dict assignment `d[k] = v`: replace in place if the key is
present, append otherwise. -/
def idxSet (idx : HashIndex) (h : Bytes) (e : IndexEntry) : HashIndex :=
  match idx with
  | [] => [(h, e)]
  | (k, e0) :: rest =>
    if k = h then (h, e) :: rest else (k, e0) :: idxSet rest h e

/-- Python `del d[k]`. -/
def idxErase (idx : HashIndex) (h : Bytes) : HashIndex :=
  idx.filter (fun ke => ke.1 ≠ h)

/-- `StorageManager._add_to_hash_index`. -/
def add_to_hash_index (idx : HashIndex) (file_hash : Bytes)
    (file_path : String) : HashIndex :=
  match idxLookup idx file_hash with
  | none => idxSet idx file_hash (.single file_path)
  | some (.single current) =>
    if current ≠ file_path then
      idxSet idx file_hash (.multi [current, file_path])
    else idx
  | some (.multi current) =>
    if file_path ∉ current then
      idxSet idx file_hash (.multi (current ++ [file_path]))
    else idx

/-- `StorageManager._remove_from_hash_index`: drop `file_path` from the
entry under `file_hash` (if any), deleting an emptied entry and collapsing
a one-element list back to a single string. -/
def remove_from_hash_index (idx : HashIndex) (file_hash : Bytes)
    (file_path : String) : HashIndex :=
  match idxLookup idx file_hash with
  | none => idx
  | some (.single current) =>
    if current = file_path then idxErase idx file_hash else idx
  | some (.multi current) =>
    if file_path ∈ current then
      match current.erase file_path with
      | [] => idxErase idx file_hash
      | [q] => idxSet idx file_hash (.single q)
      | q :: q2 :: rest => idxSet idx file_hash (.multi (q :: q2 :: rest))
    else idx

/-- The `(hash, path)` pairs held by the index, one per recorded
location. -/
def pairsOf (idx : HashIndex) : List (Bytes × String) :=
  idx.flatMap (fun ke => ke.2.locations.map (fun p => (ke.1, p)))

/-- Code-point-wise lexicographic order on character lists, matching
Python string comparison. -/
def charsLt : List Char → List Char → Bool
  | [], [] => false
  | [], _ :: _ => true
  | _ :: _, [] => false
  | a :: as, b :: bs => if a < b then true else if b < a then false else charsLt as bs

/-- Python `<` on strings. -/
def pathLt (a b : String) : Bool := charsLt a.data b.data

/-- Stable insertion of a pair into a path-sorted pair list: the new pair
goes before the first pair whose path is not strictly smaller. -/
def insertPairByPath (x : Bytes × String) :
    List (Bytes × String) → List (Bytes × String)
  | [] => [x]
  | y :: ys =>
    if pathLt y.2 x.2 then y :: insertPairByPath x ys else x :: y :: ys

/-- The stable sort by path that `items_to_sort.sort(key=lambda x: x[1])`
performs. -/
def sortPairsByPath (l : List (Bytes × String)) : List (Bytes × String) :=
  l.foldr insertPairByPath []

/-- One step of `_sort_hash_index_by_filename`'s dict rebuild: insert the
next sorted `(hash, path)` pair (the first occurrence of a hash becomes a
single string, later occurrences extend it to a list; note that the
single-string case extends unconditionally, without the equality check
`_add_to_hash_index` has). -/
def rebuildStep (acc : HashIndex) (hp : Bytes × String) : HashIndex :=
  match idxLookup acc hp.1 with
  | none => idxSet acc hp.1 (.single hp.2)
  | some (.single q) => idxSet acc hp.1 (.multi [q, hp.2])
  | some (.multi l) =>
    if hp.2 ∉ l then idxSet acc hp.1 (.multi (l ++ [hp.2])) else acc

/-- The dict rebuild of `_sort_hash_index_by_filename`, over a pair
list. -/
def rebuildFromPairs (pairs : List (Bytes × String)) : HashIndex :=
  pairs.foldl rebuildStep []

/-- `StorageManager._sort_hash_index_by_filename`: flatten the index to
`(hash, path)` pairs, sort them by path, and rebuild the dict in that
order. -/
def sort_hash_index_by_filename (idx : HashIndex) : HashIndex :=
  rebuildFromPairs (sortPairsByPath (pairsOf idx))

/-- `StorageManager._update_hash_index`: add the new location, then
replace the in-memory index by the filename-sorted rebuild (the JSON
persistence of the sorted index is I/O and not part of the state model;
its failure is logged and swallowed by the Python code). -/
def update_hash_index (idx : HashIndex) (file_hash : Bytes)
    (file_path : String) : HashIndex :=
  sort_hash_index_by_filename (add_to_hash_index idx file_hash file_path)

/-- `StorageManager._validate_data_type`: full match of
`^[a-zA-Z0-9_]+$`. -/
def validate_data_type (data_type : String) : Bool :=
  data_type ≠ "" && data_type.data.all (fun c => c.isAlphanum || c == '_')

/-- `f"{period:02d}"` for a non-negative period. -/
def zeroPad2 (n : Nat) : String :=
  if n < 10 then "0" ++ toString n else toString n

/-- The canonical data filename
`f"{data_type}_{year}_{period:02d}.csv"`. -/
def canonicalFilename (data_type : String) (year period : Nat) : String :=
  data_type ++ "_" ++ toString year ++ "_" ++ zeroPad2 period ++ ".csv"

/-- The metadata side-record written next to each artifact
(`.metadata/{name}.json`).  The wall-clock `timestamp` field is not
modelled; `additional` holds the caller-supplied extra fields. -/
structure MetadataRecord where
  filename : String
  data_type : String
  year : Nat
  period : Nat
  period_type : String
  file_size : Nat
  sha256_hash : Bytes
  encoding : String
  file_path : String
  force_overwrite : Bool
  additional : List (String × String)
deriving DecidableEq, Repr

/-- `SaveResult` (src/src/managers/storage_manager.py). -/
structure SaveResult where
  success : Bool
  file_path : Option String := none
  metadata_path : Option String := none
  error : Option String := none
  is_duplicate : Bool := false
  is_new : Bool := false
deriving DecidableEq, Repr

/-- The storage state visible to `StorageManager`: the flat data directory
(path → bytes), the metadata directory, the in-memory hash index, and the
live temporary files of the base directory.  Paths are relative to the
base directory. -/
structure StorageState where
  disk : List (String × Bytes)
  metadataDir : List (String × MetadataRecord)
  hash_index : HashIndex
  tempFiles : List String
deriving DecidableEq, Repr

/-- A fresh store (empty base directory, empty index). -/
def emptyStore : StorageState :=
  { disk := [], metadataDir := [], hash_index := [], tempFiles := [] }

/-- Directory lookup. -/
def dLookup {β : Type} (d : List (String × β)) (p : String) : Option β :=
  match d with
  | [] => none
  | (k, v) :: rest => if k = p then some v else dLookup rest p

/-- Directory write (overwriting any existing file at the path). -/
def dSet {β : Type} (d : List (String × β)) (p : String) (v : β) :
    List (String × β) :=
  match d with
  | [] => [(p, v)]
  | (k, v0) :: rest =>
    if k = p then (p, v) :: rest else (k, v0) :: dSet rest p v

/-- `StorageManager.check_duplicates`: `file_hash in self.hash_index`. -/
def check_duplicates (s : StorageState) (file_hash : Bytes) : Bool :=
  (idxLookup s.hash_index file_hash).isSome

/-- Injected failure point of the atomic payload write: `ok` (no failure),
`atTempWrite` (the `os.write` to the temporary file raises), or `atRename`
(the `Path.replace` into place raises; rename is atomic, so the target is
untouched).  In both failure cases the `except` handler unlinks the
temporary file and the outer handler returns a failed `SaveResult`. -/
inductive WriteFail where
  | ok : WriteFail
  | atTempWrite : WriteFail
  | atRename : WriteFail
deriving DecidableEq, Repr

/-- `StorageManager.save_with_metadata`.  Mirrors the Python control flow:
validate the data type; compute the digest; return a duplicate result when
not forcing and the digest is already indexed; when forcing over an
existing file, remove the old content's digest entry for the target path
from the index (before any write); write the payload via temporary file +
atomic rename (the injected `fail` aborts here, the handler unlinks the
temporary file, and the outer handler returns a failed result); write the
metadata side-record; update and re-sort the hash index. -/
def save_with_metadata (s : StorageState) (data : Bytes)
    (data_type : String) (year period : Nat) (is_monthly : Bool)
    (additional : List (String × String)) (force_overwrite : Bool)
    (fail : WriteFail) : SaveResult × StorageState :=
  if ¬ validate_data_type data_type then
    ({ success := false,
       error := some ("Invalid data_type: " ++ data_type ++ ". Contains invalid characters.") }, s)
  else
    let data_hash := sha256_hexdigest data
    if ¬ force_overwrite ∧ check_duplicates s data_hash then
      ({ success := true, is_duplicate := true }, s)
    else
      let filename := canonicalFilename data_type year period
      let file_path := filename
      let is_new_file := (dLookup s.disk file_path).isNone
      let s1 :=
        if (dLookup s.disk file_path).isSome ∧ force_overwrite then
          let old_data := (dLookup s.disk file_path).getD []
          { s with hash_index :=
              remove_from_hash_index s.hash_index (sha256_hexdigest old_data) file_path }
        else s
      match fail with
      | .atTempWrite => ({ success := false, error := some "write failed" }, s1)
      | .atRename => ({ success := false, error := some "write failed" }, s1)
      | .ok =>
        let s2 := { s1 with disk := dSet s1.disk file_path data }
        let period_type := if is_monthly then "monthly" else "weekly"
        let metadata : MetadataRecord :=
          { filename := filename, data_type := data_type, year := year,
            period := period, period_type := period_type,
            file_size := data.length, sha256_hash := data_hash,
            encoding := "shift_jis", file_path := file_path,
            force_overwrite := force_overwrite, additional := additional }
        let metadata_filename := data_type ++ "_" ++ toString year ++ "_" ++ zeroPad2 period ++ ".json"
        let s3 := { s2 with metadataDir := dSet s2.metadataDir metadata_filename metadata }
        let s4 := { s3 with hash_index := update_hash_index s3.hash_index data_hash file_path }
        ({ success := true, file_path := some file_path,
           metadata_path := some metadata_filename, is_new := is_new_file }, s4)

/-- One call of a save trace (the `fail := .ok` runs used for the
reachable-state claims). -/
structure SaveCall where
  data : Bytes
  data_type : String
  year : Nat
  period : Nat
  is_monthly : Bool := false
  additional : List (String × String) := []
  force_overwrite : Bool := false
deriving DecidableEq, Repr

/-- The canonical target path of a call. -/
def targetPath (c : SaveCall) : String :=
  canonicalFilename c.data_type c.year c.period

/-- Execute one call (no injected I/O failure) and keep the state. -/
def applySave (s : StorageState) (c : SaveCall) : StorageState :=
  (save_with_metadata s c.data c.data_type c.year c.period c.is_monthly
    c.additional c.force_overwrite .ok).2

/-- Execute one call (no injected I/O failure) and keep the result. -/
def saveResultOf (s : StorageState) (c : SaveCall) : SaveResult :=
  (save_with_metadata s c.data c.data_type c.year c.period c.is_monthly
    c.additional c.force_overwrite .ok).1

/-- Execute a sequence of save calls. -/
def runSaves (s : StorageState) (cs : List SaveCall) : StorageState :=
  cs.foldl applySave s

/-- How many times path `p` is recorded across all values of the hash
index (as a single string or inside a location list). -/
def pathOccurrences (idx : HashIndex) (p : String) : Nat :=
  (pairsOf idx).countP (fun hp => hp.2 = p)

/-- A call is overwrite-disciplined in state `s` when it cannot hit the
unguarded-overwrite path: it forces the overwrite, or its target path is
not yet on disk, or its payload digest is already indexed (so the call
returns a duplicate without writing). -/
def goodCall (s : StorageState) (c : SaveCall) : Bool :=
  c.force_overwrite || (dLookup s.disk (targetPath c)).isNone ||
    check_duplicates s (sha256_hexdigest c.data)

/-- Every call of the trace is overwrite-disciplined in the state it
actually runs in. -/
def goodTrace (s : StorageState) : List SaveCall → Bool
  | [] => true
  | c :: cs => goodCall s c && goodTrace (applySave s c) cs

/-- Well-formedness of the hash index as the storage code maintains it:
the dict keys are unique and every entry's location list is
duplicate-free. -/
def indexWF (idx : HashIndex) : Prop :=
  (idx.map Prod.fst).Nodup ∧ ∀ ke ∈ idx, ke.2.locations.Nodup

/-- The storage invariant tying disk and hash index together: the index
is well-formed, every recorded `(hash, path)` pair points at a data file
on disk whose content has that digest, and every data file on disk is
recorded exactly once across the index values. -/
def storeInv (s : StorageState) : Prop :=
  indexWF s.hash_index ∧
  (∀ hp ∈ pairsOf s.hash_index,
    ∃ b, dLookup s.disk hp.2 = some b ∧ hp.1 = sha256_hexdigest b) ∧
  (∀ p, (dLookup s.disk p).isSome = true → pathOccurrences s.hash_index p = 1)

/- ===================================================================
   Part 5. Collector run statistics: `DataCollector._process_batch`
   (src/scripts/fetch_data.py).
   =================================================================== -/

/-- The run statistics dict of `DataCollector`. -/
structure RunStats where
  total_files : Nat
  successful : Nat
  failed : Nat
  duplicates : Nat
  errors : List String
deriving DecidableEq, Repr

/-- The statistics as initialized by `DataCollector.__init__`. -/
def initialStats : RunStats :=
  { total_files := 0, successful := 0, failed := 0, duplicates := 0, errors := [] }

/-- What the environment does for one work item of a batch: whether the
data type resolved to a fetch method, whether the fetch succeeded (and
with which error message otherwise), and the storage layer's `SaveResult`
(consulted only in normal mode on fetch success). -/
structure ItemEnv where
  methodKnown : Bool
  fetchSuccess : Bool
  fetchError : String
  save : SaveResult
deriving DecidableEq, Repr

/-- The per-item body of `DataCollector._process_batch`: count the item,
then exactly one of `failed` (unknown data type), `duplicates` /
`successful` / `failed` (save outcome in normal mode), `successful`
(dry run), or `failed` (fetch failure). -/
def processItem (dry_run : Bool) (st : RunStats) (it : ItemEnv) : RunStats :=
  let st := { st with total_files := st.total_files + 1 }
  if ¬ it.methodKnown then
    { st with failed := st.failed + 1 }
  else if it.fetchSuccess then
    if ¬ dry_run then
      if it.save.is_duplicate then
        { st with duplicates := st.duplicates + 1 }
      else if it.save.success then
        { st with successful := st.successful + 1 }
      else
        { st with failed := st.failed + 1,
                  errors := st.errors ++ [(it.save.error).getD ""] }
    else
      { st with successful := st.successful + 1 }
  else
    { st with failed := st.failed + 1, errors := st.errors ++ [it.fetchError] }

/-- `DataCollector._process_batch` over a batch of items. -/
def processBatch (dry_run : Bool) (st : RunStats) (items : List ItemEnv) :
    RunStats :=
  items.foldl (processItem dry_run) st

/-- The accounting invariant of the statistics. -/
def statsBalanced (st : RunStats) : Prop :=
  st.total_files = st.successful + st.failed + st.duplicates

/- ===================================================================
   Theorems.
   =================================================================== -/

/-- C6: backoff delay formula.  For every attempt a ≥ 0, with jitter
disabled, `calculate_delay(a) = min(base_delay * 2^a, max_delay)`; in
particular with `base_delay = 1.0` and `max_delay = 10.0` it yields
1.0, 2.0, 4.0, 8.0, 10.0 for attempts 0 through 4; with jitter enabled
the result exceeds that value by an amount in [0, 0.5). -/
theorem c6_backoff_delay_formula :
    (∀ (config : DataFetcherConfig) (attempt : Nat) (jitter : ℚ),
      config.enable_jitter = false →
      calculate_delay config attempt jitter
        = min (config.base_delay * 2 ^ attempt) config.max_delay) ∧
    (calculate_delay { base_delay := 1, max_delay := 10, enable_jitter := false } 0 0 = 1 ∧
     calculate_delay { base_delay := 1, max_delay := 10, enable_jitter := false } 1 0 = 2 ∧
     calculate_delay { base_delay := 1, max_delay := 10, enable_jitter := false } 2 0 = 4 ∧
     calculate_delay { base_delay := 1, max_delay := 10, enable_jitter := false } 3 0 = 8 ∧
     calculate_delay { base_delay := 1, max_delay := 10, enable_jitter := false } 4 0 = 10) ∧
    (∀ (config : DataFetcherConfig) (attempt : Nat) (jitter : ℚ),
      config.enable_jitter = true → 0 ≤ jitter → jitter < 1 / 2 →
      0 ≤ calculate_delay config attempt jitter
            - min (config.base_delay * 2 ^ attempt) config.max_delay ∧
      calculate_delay config attempt jitter
            - min (config.base_delay * 2 ^ attempt) config.max_delay < 1 / 2) :=
  by
  refine ⟨?_, ?_, ?_⟩
  · intro config attempt jitter h
    simp [calculate_delay, h]
  · refine ⟨?_, ?_, ?_, ?_, ?_⟩ <;> norm_num [calculate_delay]
  · intro config attempt jitter h h0 h1
    simp only [calculate_delay, h, if_true]
    constructor <;> linarith

/-- Witness for C6 at a concrete jitter-enabled configuration and the
jitter sample 0. -/
theorem c6_backoff_delay_formula_witness :
    0 ≤ calculate_delay { base_delay := 1, max_delay := 10, enable_jitter := true } 2 0
          - min ((1 : ℚ) * 2 ^ 2) 10 ∧
    calculate_delay { base_delay := 1, max_delay := 10, enable_jitter := true } 2 0
          - min ((1 : ℚ) * 2 ^ 2) 10 < 1 / 2 :=
  c6_backoff_delay_formula.2.2
    { base_delay := 1, max_delay := 10, enable_jitter := true } 2 0
    rfl (le_refl 0) one_half_pos

/-- C7 counterexample: at attempt 0 with `base_delay = 1.0`,
`max_delay = 10.0` and jitter disabled, the delay the retry loop uses for
an HTTP 429 error is `calculate_delay(0 + 1) * 2 = 4.0`, which is not
twice the standard backoff delay of the same attempt
(`2 * calculate_delay(0) = 2.0`). -/
theorem c7_rate_limit_delay_counterexample :
    retry_delay { max_retries := 3, base_delay := 1, max_delay := 10, enable_jitter := false }
        (.httpError 429) 0 (fun _ => 0) = 4 ∧
    2 * calculate_delay { max_retries := 3, base_delay := 1, max_delay := 10, enable_jitter := false }
        0 0 = 2 ∧
    retry_delay { max_retries := 3, base_delay := 1, max_delay := 10, enable_jitter := false }
        (.httpError 429) 0 (fun _ => 0)
      ≠ 2 * calculate_delay { max_retries := 3, base_delay := 1, max_delay := 10, enable_jitter := false }
        0 0 :=
  by
  refine ⟨?_, ?_, ?_⟩ <;> norm_num [retry_delay, calculate_delay, isRateLimitError]

/-- C7 amended: when attempt a fails with an HTTP 429-class error, the
delay slept before the next attempt equals exactly twice the standard
backoff delay of attempt a + 1 (the code computes
`calculate_delay(attempt + 1) * 2`), while any other caught transient
error at attempt a uses the standard delay of attempt a itself. -/
theorem c7_rate_limit_delay_amended :
    (∀ (config : DataFetcherConfig) (attempt : Nat) (jitterAt : Nat → ℚ),
      retry_delay config (.httpError 429) attempt jitterAt
        = 2 * calculate_delay config (attempt + 1) (jitterAt (attempt + 1))) ∧
    (∀ (config : DataFetcherConfig) (attempt : Nat) (jitterAt : Nat → ℚ),
      retry_delay config .timeout attempt jitterAt
        = calculate_delay config attempt (jitterAt attempt)) :=
  by
  constructor
  · intro config attempt jitterAt
    simp [retry_delay, isRateLimitError, mul_comm]
  · intro config attempt jitterAt
    simp [retry_delay, isRateLimitError]

/-- C8: error classification through the actual fetch stack.
`_post_request` converts every non-200 HTTP status — 5xx and 429
included — into a plain `Exception`, which `execute_with_retry`'s final
`except Exception` clause re-raises immediately: a repeated 500 (or 429)
response is surfaced after a single attempt, with no retry and no backoff
sleep, even though three retries remain, contradicting the claim that
5xx/429 are retried while attempts remain (the executor's
`except (Timeout, ConnectionError, HTTPError)` clause does retry a
transport-level timeout, third conjunct, but it can never see a
status-code error coming from `_post_request`). -/
theorem c8_status_errors_not_retried :
    (execute_with_retry
        { max_retries := 3, base_delay := 1, max_delay := 10, enable_jitter := false }
        (fun _ => post_request (.response 500 [])) (fun _ => 0)
      = { result := .error (.genericError "Request failed with status code: 500"),
          attemptsMade := 1, sleeps := [] }) ∧
    (execute_with_retry
        { max_retries := 3, base_delay := 1, max_delay := 10, enable_jitter := false }
        (fun _ => post_request (.response 429 [])) (fun _ => 0)
      = { result := .error (.genericError "Request failed with status code: 429"),
          attemptsMade := 1, sleeps := [] }) ∧
    (execute_with_retry
        { max_retries := 3, base_delay := 1, max_delay := 10, enable_jitter := false }
        (fun _ => post_request (.raisesExc .timeout)) (fun _ => 0)).result
      = .error .timeout ∧
    (execute_with_retry
        { max_retries := 3, base_delay := 1, max_delay := 10, enable_jitter := false }
        (fun _ => post_request (.raisesExc .timeout)) (fun _ => 0)).attemptsMade = 4 :=
  ⟨rfl, rfl, rfl, rfl⟩

/-- C1: the gap computation over canonically named files.  For the weekly
series `sentinel_weekly_gender` in the 52-week year 2023, with existing
files exactly the canonical-form names for periods 1, 2, 4 and 5 and the
clock at week 5 of 2023, `get_missing_data` returns the parameters of all
five periods instead of exactly period 3: `_parse_existing_files` reads
the underscore-separated stem fields at positions -4 and -3, which for the
canonical form are name words, not the year and period (second conjunct),
and even a well-positioned zero-padded period `"01"` could never equal the
generated `str(week)` `"1"`.  The legacy timestamp-suffixed form does
parse, and with legacy names the same run returns exactly period 3 (third
conjunct), the behaviour the repository's own tests
(src/tests/test_enhanced_fetcher.py) demand of canonical names as well. -/
theorem c1_gap_computation_canonical_files :
    ((get_missing_data "sentinel_weekly_gender"
        ["sentinel_weekly_gender_2023_01.csv", "sentinel_weekly_gender_2023_02.csv",
         "sentinel_weekly_gender_2023_04.csv", "sentinel_weekly_gender_2023_05.csv"]
        2023 2023 { year := 2023, month := 2, isoWeek := 5 }).map
        (fun p => p.start_sub_period) = ["1", "2", "3", "4", "5"]) ∧
    ((parse_existing_files ["sentinel_weekly_gender_2023_01.csv"]
        "sentinel_weekly_gender").map
        (fun p => (p.start_year, p.start_sub_period)) = [("weekly", "gender")]) ∧
    ((get_missing_data "sentinel_weekly_gender"
        ["sentinel_weekly_gender_2023_1_20230101_000000.csv",
         "sentinel_weekly_gender_2023_2_20230108_000000.csv",
         "sentinel_weekly_gender_2023_4_20230122_000000.csv",
         "sentinel_weekly_gender_2023_5_20230129_000000.csv"]
        2023 2023 { year := 2023, month := 2, isoWeek := 5 }).map
        (fun p => p.start_sub_period) = ["3"]) ∧
    get_weeks_in_year 2023 = 52 :=
  by refine ⟨by decide, by decide, by decide, by decide⟩

/-- C5: explicit target-period validation (settled against the
spec-modelled `get_missing_data_with_targets`; the version of
`get_missing_data` with target-list parameters that
src/tests/test_target_filtering.py exercises is not present under src/).
A request for a weekly series whose explicit week list contains a value
outside [1, 53], or for a monthly series whose explicit month list
contains a value outside [1, 12], yields a validation error instead of a
gap report, for every year range and every existing-files list. -/
theorem c5_target_period_validation :
    (∀ (data_type : String) (files : List String) (sy ey : Nat)
        (now : NowClock) (tws : List Nat),
      strContains "monthly" data_type = false →
      (∃ w ∈ tws, w < 1 ∨ 53 < w) →
      get_missing_data_with_targets data_type files sy ey (some tws) none now
        = .error "invalid week numbers in target_weeks") ∧
    (∀ (data_type : String) (files : List String) (sy ey : Nat)
        (now : NowClock) (tms : List Nat),
      strContains "monthly" data_type = true →
      (∃ m ∈ tms, m < 1 ∨ 12 < m) →
      get_missing_data_with_targets data_type files sy ey none (some tms) now
        = .error "invalid month numbers in target_months") :=
  by
  constructor
  · intro data_type files sy ey now tws hmonthly hbad
    obtain ⟨w, hw, hout⟩ := hbad
    have hall : tws.all (fun w => 1 ≤ w && w ≤ 53) = false := by
      cases hcase : tws.all (fun w => 1 ≤ w && w ≤ 53) with
      | false => rfl
      | true =>
        have hbw := List.all_eq_true.mp hcase w hw
        simp only [Bool.and_eq_true, decide_eq_true_eq] at hbw
        omega
    simp [get_missing_data_with_targets, hmonthly, hall]
  · intro data_type files sy ey now tms hmonthly hbad
    obtain ⟨m, hm, hout⟩ := hbad
    have hall : tms.all (fun m => 1 ≤ m && m ≤ 12) = false := by
      cases hcase : tms.all (fun m => 1 ≤ m && m ≤ 12) with
      | false => rfl
      | true =>
        have hbm := List.all_eq_true.mp hcase m hm
        simp only [Bool.and_eq_true, decide_eq_true_eq] at hbm
        omega
    simp [get_missing_data_with_targets, hmonthly, hall]

/-- Witness for C5 at the claim's own inputs: weekly list [0, 54] and
monthly list [0, 13]. -/
theorem c5_target_period_validation_witness :
    get_missing_data_with_targets "sentinel_weekly_gender" [] 2025 2025
        (some [0, 54]) none { year := 2025, month := 12, isoWeek := 52 }
      = .error "invalid week numbers in target_weeks" ∧
    get_missing_data_with_targets "sentinel_monthly_age" [] 2025 2025
        none (some [0, 13]) { year := 2025, month := 12, isoWeek := 52 }
      = .error "invalid month numbers in target_months" :=
  ⟨c5_target_period_validation.1 "sentinel_weekly_gender" [] 2025 2025
      { year := 2025, month := 12, isoWeek := 52 } [0, 54] (by decide)
      ⟨0, by decide, by decide⟩,
   c5_target_period_validation.2 "sentinel_monthly_age" [] 2025 2025
      { year := 2025, month := 12, isoWeek := 52 } [0, 13] (by decide)
      ⟨0, by decide, by decide⟩⟩

/-- C10: run-statistics accounting invariant.  In both dry-run and normal
mode, each processed item increments `total_files` by one and exactly one
of `successful`, `failed`, `duplicates` by one (first conjunct), the
collector's initial statistics are balanced (second conjunct), and
therefore `total_files = successful + failed + duplicates` is preserved by
every batch — and, since the batch and the starting state are arbitrary,
at every point between items (third conjunct). -/
theorem c10_stats_accounting :
    (∀ (dry_run : Bool) (st : RunStats) (it : ItemEnv),
      (processItem dry_run st it).total_files = st.total_files + 1 ∧
      (processItem dry_run st it).successful + (processItem dry_run st it).failed
          + (processItem dry_run st it).duplicates
        = st.successful + st.failed + st.duplicates + 1) ∧
    statsBalanced initialStats ∧
    (∀ (dry_run : Bool) (st : RunStats) (items : List ItemEnv),
      statsBalanced st → statsBalanced (processBatch dry_run st items)) :=
  by
  have hstep : ∀ (dry_run : Bool) (st : RunStats) (it : ItemEnv),
      (processItem dry_run st it).total_files = st.total_files + 1 ∧
      (processItem dry_run st it).successful + (processItem dry_run st it).failed
          + (processItem dry_run st it).duplicates
        = st.successful + st.failed + st.duplicates + 1 := by
    intro dry_run st it
    unfold processItem
    split_ifs <;> simp <;> omega
  refine ⟨hstep, rfl, ?_⟩
  intro dry_run st items
  induction items generalizing st with
  | nil => intro h; exact h
  | cons it rest ih =>
    intro h
    have h2 := hstep dry_run st it
    have h3 : statsBalanced (processItem dry_run st it) := by
      unfold statsBalanced at h ⊢
      omega
    simpa [processBatch] using ih (processItem dry_run st it) h3

/-- Witness for C10 on a concrete mixed batch in normal mode, starting
from the collector's initial statistics. -/
theorem c10_stats_accounting_witness :
    statsBalanced (processBatch false initialStats
      [{ methodKnown := true, fetchSuccess := true, fetchError := "",
         save := { success := true } },
       { methodKnown := true, fetchSuccess := true, fetchError := "",
         save := { success := true, is_duplicate := true } },
       { methodKnown := true, fetchSuccess := false, fetchError := "boom",
         save := { success := false } },
       { methodKnown := false, fetchSuccess := false, fetchError := "",
         save := { success := false } }]) :=
  c10_stats_accounting.2.2 false initialStats _ c10_stats_accounting.2.1

/-- The leap-year predicate, arithmetically. -/
theorem isLeap_iff (y : Nat) :
    isLeap y = true ↔ (y % 4 = 0 ∧ (y % 100 ≠ 0 ∨ y % 400 = 0)) := by
  simp [isLeap]

set_option maxHeartbeats 1000000 in
/-- `daysBeforeYear` grows by 365 plus the leap day of `y`. -/
theorem daysBeforeYear_succ (y : Nat) (hy : 1 ≤ y) :
    daysBeforeYear (y + 1) = daysBeforeYear y + 365 + (if isLeap y then 1 else 0) := by
  have hiff := isLeap_iff y
  unfold daysBeforeYear
  split_ifs with h
  · have hc := hiff.mp h
    omega
  · have hc : ¬ (y % 4 = 0 ∧ (y % 100 ≠ 0 ∨ y % 400 = 0)) := fun c => h (hiff.mpr c)
    omega

set_option maxHeartbeats 2000000 in
/-- December 28 always falls in the last ISO week of its year: the
embedded `isocalendar` computation at `(y, 12, 28)` yields week 52 or 53
for every positive year. -/
theorem weeks_52_or_53 (y : Nat) (hy : 1 ≤ y) :
    get_weeks_in_year y = 52 ∨ get_weeks_in_year y = 53 := by
  have hsucc := daysBeforeYear_succ y hy
  have h111 : toOrdinal y 1 1 = daysBeforeYear y + 1 := by
    simp [toOrdinal, dayOfYear, daysBeforeMonth]
  have h1228 : toOrdinal y 12 28 = daysBeforeYear y + 362 + (if isLeap y then 1 else 0) := by
    simp only [toOrdinal, dayOfYear, daysBeforeMonth]
    cases isLeap y <;> simp
  have h11n : toOrdinal (y + 1) 1 1 = daysBeforeYear y + 366 + (if isLeap y then 1 else 0) := by
    have hstep : toOrdinal (y + 1) 1 1 = daysBeforeYear (y + 1) + 1 := by
      simp [toOrdinal, dayOfYear, daysBeforeMonth]
    rw [hstep, hsucc]
    omega
  simp only [get_weeks_in_year, isocalendar, isoweek1monday]
  rw [h111, h1228, h11n]
  clear h111 h1228 h11n hsucc
  generalize daysBeforeYear y = n
  have hb : (if isLeap y then (1 : Nat) else 0) = 0 ∨ (if isLeap y then (1 : Nat) else 0) = 1 := by
    cases isLeap y <;> simp
  generalize (if isLeap y then (1 : Nat) else 0) = b at hb ⊢
  split_ifs <;> dsimp only <;> omega

/-- C9: weeks-in-year correctness.  For every year y ≥ 1 the
weeks-in-year function returns a value in 52..53, equal to 53 exactly
when the ISO week containing December 28 of y is week 53 (the function is
precisely that ISO week); in particular it returns 53 for 2020 and 52 for
2023. -/
theorem c9_weeks_in_year (y : Nat) (hy : 1 ≤ y) :
    (get_weeks_in_year y = 52 ∨ get_weeks_in_year y = 53) ∧
    (get_weeks_in_year y = 53 ↔ (isocalendar y 12 28).2.1 = 53) ∧
    get_weeks_in_year 2020 = 53 ∧ get_weeks_in_year 2023 = 52 :=
  ⟨weeks_52_or_53 y hy, Iff.rfl, by decide, by decide⟩

/-- Witness for C9 at the concrete year 2024. -/
theorem c9_weeks_in_year_witness :
    (get_weeks_in_year 2024 = 52 ∨ get_weeks_in_year 2024 = 53) ∧
    (get_weeks_in_year 2024 = 53 ↔ (isocalendar 2024 12 28).2.1 = 53) ∧
    get_weeks_in_year 2020 = 53 ∧ get_weeks_in_year 2023 = 52 :=
  c9_weeks_in_year 2024 (by decide)

/-- C3 amended: save atomicity on error.  For every `save_with_metadata`
call whose payload write fails (in the temp-file write or the rename), and
which reaches the write (valid data type, not short-circuited as a
duplicate), the call returns an unsuccessful `SaveResult`, the data
directory is unchanged (so no file appears at the canonical target path
that was not there before), the temporary file is removed, and the
metadata directory is unchanged; the hash index is unchanged **except**
in the force-overwrite-of-an-existing-file case, where the code has
already removed the old content's index entry for the target path before
attempting the write (the original claim's "the hash index is not mutated"
fails exactly there, see the counterexample). -/
theorem c3_atomicity_amended (s : StorageState) (data : Bytes)
    (data_type : String) (year period : Nat) (is_monthly : Bool)
    (additional : List (String × String)) (force_overwrite : Bool)
    (fail : WriteFail)
    (hfail : fail ≠ .ok)
    (hvalid : validate_data_type data_type = true)
    (hwrite : ¬ (force_overwrite = false ∧
      check_duplicates s (sha256_hexdigest data) = true)) :
    (save_with_metadata s data data_type year period is_monthly additional
        force_overwrite fail).1.success = false ∧
    (save_with_metadata s data data_type year period is_monthly additional
        force_overwrite fail).2.disk = s.disk ∧
    (save_with_metadata s data data_type year period is_monthly additional
        force_overwrite fail).2.metadataDir = s.metadataDir ∧
    (save_with_metadata s data data_type year period is_monthly additional
        force_overwrite fail).2.tempFiles = s.tempFiles ∧
    (save_with_metadata s data data_type year period is_monthly additional
        force_overwrite fail).2.hash_index
      = (if (dLookup s.disk (canonicalFilename data_type year period)).isSome
              ∧ force_overwrite = true then
           remove_from_hash_index s.hash_index
             (sha256_hexdigest
               ((dLookup s.disk (canonicalFilename data_type year period)).getD []))
             (canonicalFilename data_type year period)
         else s.hash_index) := by
  have hcond : ¬ (¬ force_overwrite = true ∧
      check_duplicates s (sha256_hexdigest data) = true) := by
    intro hc
    exact hwrite ⟨Bool.not_eq_true force_overwrite ▸ hc.1, hc.2⟩
  unfold save_with_metadata
  rw [if_neg (by simp [hvalid]), if_neg hcond]
  cases fail with
  | ok => exact absurd rfl hfail
  | atTempWrite =>
    by_cases hC : ((dLookup s.disk (canonicalFilename data_type year period)).isSome = true
        ∧ force_overwrite = true)
    · simp [hC]
    · simp [hC]
  | atRename =>
    by_cases hC : ((dLookup s.disk (canonicalFilename data_type year period)).isSome = true
        ∧ force_overwrite = true)
    · simp [hC]
    · simp [hC]

/-- Dict assignment then lookup of the same key. -/
theorem idxLookup_idxSet_self (idx : HashIndex) (h : Bytes) (e : IndexEntry) :
    idxLookup (idxSet idx h e) h = some e := by
  induction idx with
  | nil => simp [idxSet, idxLookup]
  | cons kv rest ih =>
    by_cases hk : kv.1 = h
    · simp [idxSet, hk, idxLookup]
    · simp [idxSet, hk, idxLookup, ih]

/-- Dict assignment leaves other keys alone. -/
theorem idxLookup_idxSet_ne (idx : HashIndex) (h k : Bytes) (e : IndexEntry)
    (hne : k ≠ h) : idxLookup (idxSet idx h e) k = idxLookup idx k := by
  induction idx with
  | nil =>
    simp only [idxSet, idxLookup]
    rw [if_neg (fun hc : h = k => hne hc.symm)]
  | cons kv rest ih =>
    simp only [idxSet]
    by_cases hk : kv.1 = h
    · rw [if_pos hk]
      simp only [idxLookup]
      rw [if_neg (fun hc : h = k => hne hc.symm),
          if_neg (fun hc : kv.1 = k => hne ((hk ▸ hc).symm))]
    · rw [if_neg hk]
      simp only [idxLookup]
      by_cases hkk : kv.1 = k
      · rw [if_pos hkk, if_pos hkk]
      · rw [if_neg hkk, if_neg hkk]
        exact ih

/-- A location recorded under a key occurs among the index pairs. -/
theorem mem_pairsOf_of_lookup (idx : HashIndex) (h : Bytes) (e : IndexEntry)
    (hl : idxLookup idx h = some e) (x : String) (hx : x ∈ e.locations) :
    (h, x) ∈ pairsOf idx := by
  induction idx with
  | nil => simp [idxLookup] at hl
  | cons kv rest ih =>
    by_cases hk : kv.1 = h
    · simp only [idxLookup, hk, if_pos] at hl
      cases hl
      simp only [pairsOf, List.flatMap_cons, List.mem_append]
      exact Or.inl (by subst hk; exact List.mem_map_of_mem _ hx)
    · simp only [idxLookup, hk, if_neg, ite_false] at hl
      simp only [pairsOf, List.flatMap_cons, List.mem_append]
      exact Or.inr (ih hl)

/-- The locations of a just-assigned entry occur among the index pairs. -/
theorem mem_pairsOf_idxSet (idx : HashIndex) (h : Bytes) (e : IndexEntry)
    (x : String) (hx : x ∈ e.locations) :
    (h, x) ∈ pairsOf (idxSet idx h e) :=
  mem_pairsOf_of_lookup (idxSet idx h e) h e (idxLookup_idxSet_self idx h e) x hx

/-- `_add_to_hash_index` records the added `(hash, path)` pair. -/
theorem mem_pairsOf_add (idx : HashIndex) (h : Bytes) (p : String) :
    (h, p) ∈ pairsOf (add_to_hash_index idx h p) := by
  unfold add_to_hash_index
  cases hl : idxLookup idx h with
  | none =>
    exact mem_pairsOf_idxSet idx h (.single p) p (by simp [IndexEntry.locations])
  | some e =>
    cases e with
    | single q =>
      dsimp only
      split_ifs with hq
      · exact mem_pairsOf_idxSet idx h (.multi [q, p]) p (by simp [IndexEntry.locations])
      · rw [not_not] at hq
        exact mem_pairsOf_of_lookup idx h (.single q) hl p (by simp [IndexEntry.locations, hq])
    | multi l =>
      dsimp only
      split_ifs with hp2
      · exact mem_pairsOf_of_lookup idx h (.multi l) hl p hp2
      · exact mem_pairsOf_idxSet idx h (.multi (l ++ [p])) p (by simp [IndexEntry.locations])

/-- Membership through the sorted insertion. -/
theorem mem_insertPairByPath (x y : Bytes × String) (l : List (Bytes × String)) :
    y ∈ insertPairByPath x l ↔ y = x ∨ y ∈ l := by
  induction l with
  | nil => simp [insertPairByPath]
  | cons z zs ih =>
    unfold insertPairByPath
    split_ifs with hlt
    · simp only [List.mem_cons, ih]
      tauto
    · simp only [List.mem_cons]

/-- The sort preserves membership. -/
theorem mem_sortPairsByPath (y : Bytes × String) (l : List (Bytes × String)) :
    y ∈ sortPairsByPath l ↔ y ∈ l := by
  induction l with
  | nil => simp [sortPairsByPath]
  | cons z zs ih =>
    simp only [sortPairsByPath, List.foldr_cons] at *
    rw [mem_insertPairByPath, ih, List.mem_cons]

/-- A rebuild step keeps every present key present. -/
theorem rebuildStep_lookup_isSome (acc : HashIndex) (hh : Bytes) (pp : String)
    (k : Bytes) (hk : (idxLookup acc k).isSome = true) :
    (idxLookup (rebuildStep acc (hh, pp)) k).isSome = true := by
  unfold rebuildStep
  dsimp only
  by_cases hkh : k = hh
  · subst hkh
    cases hl : idxLookup acc k with
    | none => simp [idxLookup_idxSet_self]
    | some e =>
      cases e with
      | single q => simp [idxLookup_idxSet_self]
      | multi l =>
        dsimp only
        split_ifs with hni
        · rw [hl]
          simp
        · simp [idxLookup_idxSet_self]
  · cases hl : idxLookup acc hh with
    | none =>
      rw [idxLookup_idxSet_ne acc hh k _ hkh]
      exact hk
    | some e =>
      cases e with
      | single q =>
        rw [idxLookup_idxSet_ne acc hh k _ hkh]
        exact hk
      | multi l =>
        dsimp only
        split_ifs with hni
        · exact hk
        · rw [idxLookup_idxSet_ne acc hh k _ hkh]
          exact hk

/-- A rebuild step makes its own hash present. -/
theorem rebuildStep_lookup_self (acc : HashIndex) (hh : Bytes) (pp : String) :
    (idxLookup (rebuildStep acc (hh, pp)) hh).isSome = true := by
  unfold rebuildStep
  dsimp only
  cases hl : idxLookup acc hh with
  | none => simp [idxLookup_idxSet_self]
  | some e =>
    cases e with
    | single q => simp [idxLookup_idxSet_self]
    | multi l =>
      dsimp only
      split_ifs with hni
      · rw [hl]
        simp
      · simp [idxLookup_idxSet_self]

/-- After the dict rebuild, every hash occurring in the pair list is
present. -/
theorem rebuild_lookup_isSome (L : List (Bytes × String)) (acc : HashIndex)
    (h : Bytes)
    (hmem : (idxLookup acc h).isSome = true ∨ ∃ p, (h, p) ∈ L) :
    (idxLookup (L.foldl rebuildStep acc) h).isSome = true := by
  induction L generalizing acc with
  | nil =>
    rcases hmem with hs | ⟨p, hp⟩
    · exact hs
    · simp at hp
  | cons z zs ih =>
    obtain ⟨zh, zp⟩ := z
    simp only [List.foldl_cons]
    rcases hmem with hs | ⟨p, hp⟩
    · exact ih (rebuildStep acc (zh, zp)) (Or.inl (rebuildStep_lookup_isSome acc zh zp h hs))
    · rcases List.mem_cons.mp hp with hz | hz
      · have hzz : zh = h := by
          have := congrArg Prod.fst hz
          exact this.symm
        subst hzz
        exact ih (rebuildStep acc (zh, zp)) (Or.inl (rebuildStep_lookup_self acc zh zp))
      · exact ih (rebuildStep acc (zh, zp)) (Or.inr ⟨p, hz⟩)

/-- `_update_hash_index` leaves the added hash present in the index. -/
theorem update_hash_index_lookup_isSome (idx : HashIndex) (h : Bytes)
    (p : String) :
    (idxLookup (update_hash_index idx h p) h).isSome = true := by
  unfold update_hash_index sort_hash_index_by_filename rebuildFromPairs
  exact rebuild_lookup_isSome _ [] h
    (Or.inr ⟨p, (mem_sortPairsByPath _ _).mpr (mem_pairsOf_add idx h p)⟩)

/-- After any successful `save_with_metadata` call (no injected I/O
failure), the payload's digest is present in the hash index, so
`check_duplicates` reports it. -/
theorem check_duplicates_after_success (s : StorageState) (c : SaveCall)
    (h : (saveResultOf s c).success = true) :
    check_duplicates (applySave s c) (sha256_hexdigest c.data) = true := by
  unfold saveResultOf at h
  unfold applySave
  unfold save_with_metadata at h ⊢
  by_cases hv : validate_data_type c.data_type = true
  · rw [if_neg (by simp [hv])] at h ⊢
    by_cases hdup : (¬ c.force_overwrite = true ∧
        check_duplicates s (sha256_hexdigest c.data) = true)
    · rw [if_pos hdup] at h ⊢
      exact hdup.2
    · rw [if_neg hdup] at h ⊢
      dsimp only [check_duplicates]
      exact update_hash_index_lookup_isSome _ _ _
  · rw [if_pos (by simp [hv])] at h
    simp at h

/-- C4: deduplication idempotence.  For every starting state, every
payload and every two (year, period) keys, if the first
`save_with_metadata` call succeeds and the second call carries a
byte-identical payload with `force_overwrite = false` (and a valid series
name), the second call returns success with `is_duplicate = true` and
leaves the storage state — files, metadata and hash index — exactly
unchanged, regardless of any injected write failure (no write is ever
attempted). -/
theorem c4_dedup_idempotent (s : StorageState) (c1 c2 : SaveCall)
    (fail : WriteFail)
    (h1 : (saveResultOf s c1).success = true)
    (hdata : c2.data = c1.data)
    (hforce : c2.force_overwrite = false)
    (hvalid : validate_data_type c2.data_type = true) :
    save_with_metadata (applySave s c1) c2.data c2.data_type c2.year c2.period
        c2.is_monthly c2.additional c2.force_overwrite fail
      = ({ success := true, is_duplicate := true }, applySave s c1) := by
  have hdup : check_duplicates (applySave s c1) (sha256_hexdigest c2.data) = true := by
    rw [hdata]
    exact check_duplicates_after_success s c1 h1
  unfold save_with_metadata
  rw [if_neg (by simp [hvalid])]
  rw [if_pos ⟨by simp [hforce], hdup⟩]

/-- Witness for C4: saving byte-identical payloads under the keys
(2025, 1) and then (2026, 2) yields a duplicate result and no state
change. -/
theorem c4_dedup_idempotent_witness :
    save_with_metadata
        (applySave emptyStore { data := [0], data_type := "t", year := 2025, period := 1 })
        [0] "t" 2026 2 false [] false .ok
      = ({ success := true, is_duplicate := true },
         applySave emptyStore { data := [0], data_type := "t", year := 2025, period := 1 }) :=
  c4_dedup_idempotent emptyStore
    { data := [0], data_type := "t", year := 2025, period := 1 }
    { data := [0], data_type := "t", year := 2026, period := 2 }
    .ok (by decide) rfl rfl (by decide)

/-- C3 counterexample: a force-overwrite save of new content over the
already-stored key (2025, 1) with an injected temp-file write failure
returns an unsuccessful result **but mutates the hash index**: the old
content's entry has been removed before the write was attempted, so the
original claim's "the hash index is not mutated by the call" is false. -/
theorem c3_atomicity_counterexample :
    (save_with_metadata
        (applySave emptyStore { data := [0], data_type := "t", year := 2025, period := 1 })
        [1] "t" 2025 1 false [] true .atTempWrite).1.success = false ∧
    (save_with_metadata
        (applySave emptyStore { data := [0], data_type := "t", year := 2025, period := 1 })
        [1] "t" 2025 1 false [] true .atTempWrite).2.hash_index
      ≠ (applySave emptyStore
          { data := [0], data_type := "t", year := 2025, period := 1 }).hash_index := by
  refine ⟨by decide, by decide⟩

/-- Witness for C3 amended, at the counterexample's own input (the
force-overwrite case, where the index equation takes the removal
branch). -/
theorem c3_atomicity_amended_witness :
    (save_with_metadata
        (applySave emptyStore { data := [0], data_type := "t", year := 2025, period := 1 })
        [1] "t" 2025 1 false [] true .atTempWrite).1.success = false ∧
    (save_with_metadata
        (applySave emptyStore { data := [0], data_type := "t", year := 2025, period := 1 })
        [1] "t" 2025 1 false [] true .atTempWrite).2.disk
      = (applySave emptyStore { data := [0], data_type := "t", year := 2025, period := 1 }).disk ∧
    (save_with_metadata
        (applySave emptyStore { data := [0], data_type := "t", year := 2025, period := 1 })
        [1] "t" 2025 1 false [] true .atTempWrite).2.metadataDir
      = (applySave emptyStore { data := [0], data_type := "t", year := 2025, period := 1 }).metadataDir ∧
    (save_with_metadata
        (applySave emptyStore { data := [0], data_type := "t", year := 2025, period := 1 })
        [1] "t" 2025 1 false [] true .atTempWrite).2.tempFiles
      = (applySave emptyStore { data := [0], data_type := "t", year := 2025, period := 1 }).tempFiles ∧
    (save_with_metadata
        (applySave emptyStore { data := [0], data_type := "t", year := 2025, period := 1 })
        [1] "t" 2025 1 false [] true .atTempWrite).2.hash_index
      = (if (dLookup (applySave emptyStore
              { data := [0], data_type := "t", year := 2025, period := 1 }).disk
              (canonicalFilename "t" 2025 1)).isSome ∧ (true : Bool) = true then
           remove_from_hash_index
             (applySave emptyStore
               { data := [0], data_type := "t", year := 2025, period := 1 }).hash_index
             (sha256_hexdigest
               ((dLookup (applySave emptyStore
                   { data := [0], data_type := "t", year := 2025, period := 1 }).disk
                   (canonicalFilename "t" 2025 1)).getD []))
             (canonicalFilename "t" 2025 1)
         else (applySave emptyStore
           { data := [0], data_type := "t", year := 2025, period := 1 }).hash_index) :=
  c3_atomicity_amended
    (applySave emptyStore { data := [0], data_type := "t", year := 2025, period := 1 })
    [1] "t" 2025 1 false [] true .atTempWrite (by decide) (by decide) (by decide)


/-- The pair list of the empty index. -/
theorem pairsOf_nil : pairsOf [] = [] := rfl


/-- The pair list of a non-empty index. -/
theorem pairsOf_cons (kv : Bytes × IndexEntry) (rest : HashIndex) :
    pairsOf (kv :: rest)
      = kv.2.locations.map (fun p => (kv.1, p)) ++ pairsOf rest := rfl


/-- Unfolding `idxErase` over a head entry. -/
theorem idxErase_cons (kv : Bytes × IndexEntry) (rest : HashIndex) (h : Bytes) :
    idxErase (kv :: rest) h
      = if kv.1 = h then idxErase rest h else kv :: idxErase rest h := by
  by_cases hk : kv.1 = h <;> simp [idxErase, List.filter_cons, hk]


/-- A key looks up to nothing exactly when it is absent. -/
theorem idxLookup_eq_none_iff (idx : HashIndex) (h : Bytes) :
    idxLookup idx h = none ↔ h ∉ idx.map Prod.fst := by
  induction idx with
  | nil => simp [idxLookup]
  | cons kv rest ih =>
    simp only [idxLookup, List.map_cons, List.mem_cons]
    by_cases hk : kv.1 = h
    · simp [hk]
    · rw [if_neg hk, ih]
      constructor
      · intro hn hc
        rcases hc with hc | hc
        · exact hk hc.symm
        · exact hn hc
      · intro hn hc
        exact hn (Or.inr hc)


/-- Every recorded pair carries one of the index keys. -/
theorem mem_keys_of_mem_pairs (idx : HashIndex) (hp : Bytes × String)
    (hm : hp ∈ pairsOf idx) : hp.1 ∈ idx.map Prod.fst := by
  induction idx with
  | nil => simp [pairsOf_nil] at hm
  | cons kv rest ih =>
    rw [pairsOf_cons, List.mem_append] at hm
    rcases hm with hm | hm
    · obtain ⟨x, hx, hxe⟩ := List.mem_map.mp hm
      simp [← hxe]
    · simp [ih hm]


/-- Assigning an existing key leaves the key list unchanged. -/
theorem keys_idxSet_of_some (idx : HashIndex) (h : Bytes) (e e0 : IndexEntry)
    (hl : idxLookup idx h = some e0) :
    (idxSet idx h e).map Prod.fst = idx.map Prod.fst := by
  induction idx with
  | nil => simp [idxLookup] at hl
  | cons kv rest ih =>
    by_cases hk : kv.1 = h
    · simp [idxSet, hk]
    · simp only [idxLookup, hk, if_neg, ite_false] at hl
      simp [idxSet, hk, ih hl]


/-- Assigning a fresh key appends it to the key list. -/
theorem keys_idxSet_of_none (idx : HashIndex) (h : Bytes) (e : IndexEntry)
    (hl : idxLookup idx h = none) :
    (idxSet idx h e).map Prod.fst = idx.map Prod.fst ++ [h] := by
  induction idx with
  | nil => simp [idxSet]
  | cons kv rest ih =>
    by_cases hk : kv.1 = h
    · simp [idxLookup, hk] at hl
    · simp only [idxLookup, hk, if_neg, ite_false] at hl
      simp [idxSet, hk, ih hl]


/-- Entries after an assignment are the new binding or old entries. -/
theorem mem_idxSet_elim (idx : HashIndex) (h : Bytes) (e : IndexEntry)
    (ke : Bytes × IndexEntry) (hm : ke ∈ idxSet idx h e) :
    ke = (h, e) ∨ ke ∈ idx := by
  induction idx with
  | nil => simpa [idxSet] using hm
  | cons kv rest ih =>
    by_cases hk : kv.1 = h
    · simp only [idxSet, hk, if_pos, List.mem_cons] at hm
      rcases hm with hm | hm
      · exact Or.inl hm
      · exact Or.inr (List.mem_cons_of_mem _ hm)
    · simp only [idxSet, hk, if_neg, ite_false, List.mem_cons] at hm
      rcases hm with hm | hm
      · exact Or.inr (by simp [hm])
      · rcases ih hm with hh | hh
        · exact Or.inl hh
        · exact Or.inr (List.mem_cons_of_mem _ hh)


/-- Entries surviving a deletion were entries before. -/
theorem mem_idxErase_sub (idx : HashIndex) (h : Bytes)
    (ke : Bytes × IndexEntry) (hm : ke ∈ idxErase idx h) : ke ∈ idx :=
  List.mem_of_mem_filter hm


/-- Deletion filters the key list. -/
theorem keys_idxErase (idx : HashIndex) (h : Bytes) :
    (idxErase idx h).map Prod.fst
      = (idx.map Prod.fst).filter (fun k => k ≠ h) := by
  induction idx with
  | nil => simp [idxErase]
  | cons kv rest ih =>
    rw [idxErase_cons]
    by_cases hk : kv.1 = h
    · rw [if_pos hk, ih]
      simp [List.filter_cons, hk]
    · rw [if_neg hk]
      simp [List.filter_cons, hk, ih]


/-- Deletion filters the pair list by hash. -/
theorem pairs_idxErase (idx : HashIndex) (h : Bytes) :
    pairsOf (idxErase idx h) = (pairsOf idx).filter (fun hp => hp.1 ≠ h) := by
  induction idx with
  | nil => simp [idxErase, pairsOf_nil]
  | cons kv rest ih =>
    rw [idxErase_cons, pairsOf_cons, List.filter_append]
    by_cases hk : kv.1 = h
    · rw [if_pos hk, ih]
      have hnil : (kv.2.locations.map (fun p => (kv.1, p))).filter
          (fun hp => hp.1 ≠ h) = [] := by
        apply List.filter_eq_nil_iff.mpr
        intro a ha
        obtain ⟨x, hx, hxe⟩ := List.mem_map.mp ha
        simp [← hxe, hk]
      rw [hnil, List.nil_append]
    · rw [if_neg hk, pairsOf_cons, ih]
      have hall : (kv.2.locations.map (fun p => (kv.1, p))).filter
          (fun hp => hp.1 ≠ h) = kv.2.locations.map (fun p => (kv.1, p)) := by
        apply List.filter_eq_self.mpr
        intro a ha
        obtain ⟨x, hx, hxe⟩ := List.mem_map.mp ha
        simp [← hxe, hk]
      rw [hall]


/-- Filtering out an absent hash keeps every pair. -/
theorem filter_pairs_of_not_key (idx : HashIndex) (h : Bytes)
    (hnk : h ∉ idx.map Prod.fst) :
    (pairsOf idx).filter (fun hp => hp.1 ≠ h) = pairsOf idx := by
  apply List.filter_eq_self.mpr
  intro a ha
  have := mem_keys_of_mem_pairs idx a ha
  simp only [ne_eq, decide_eq_true_eq]
  intro hc
  exact hnk (hc ▸ this)


/-- With unique keys, the pair list splits into the pairs of one entry and
the pairs of all other hashes. -/
theorem pairs_decomp (idx : HashIndex) (h : Bytes) (e : IndexEntry)
    (hnd : (idx.map Prod.fst).Nodup) (hl : idxLookup idx h = some e) :
    (pairsOf idx).Perm
      (e.locations.map (fun x => (h, x))
        ++ (pairsOf idx).filter (fun hp => hp.1 ≠ h)) := by
  induction idx with
  | nil => simp [idxLookup] at hl
  | cons kv rest ih =>
    rw [List.map_cons, List.nodup_cons] at hnd
    obtain ⟨hknotin, hnd'⟩ := hnd
    rw [pairsOf_cons, List.filter_append]
    by_cases hk : kv.1 = h
    · rw [idxLookup, if_pos hk] at hl
      cases hl
      have hnil : (kv.2.locations.map (fun p => (kv.1, p))).filter
          (fun hp => hp.1 ≠ h) = [] := by
        apply List.filter_eq_nil_iff.mpr
        intro a ha
        obtain ⟨x, hx, hxe⟩ := List.mem_map.mp ha
        simp [← hxe, hk]
      rw [hnil, List.nil_append,
          filter_pairs_of_not_key rest h (hk ▸ hknotin), hk]
    · rw [idxLookup, if_neg hk] at hl
      have hall : (kv.2.locations.map (fun p => (kv.1, p))).filter
          (fun hp => hp.1 ≠ h) = kv.2.locations.map (fun p => (kv.1, p)) := by
        apply List.filter_eq_self.mpr
        intro a ha
        obtain ⟨x, hx, hxe⟩ := List.mem_map.mp ha
        simp [← hxe, hk]
      rw [hall]
      exact (List.Perm.append_left _ (ih hnd' hl)).trans
        (List.perm_append_comm_assoc _ _ _)


/-- Pair list after overwriting an existing entry. -/
theorem pairs_idxSet_some (idx : HashIndex) (h : Bytes) (e e0 : IndexEntry)
    (hnd : (idx.map Prod.fst).Nodup) (hl : idxLookup idx h = some e0) :
    (pairsOf (idxSet idx h e)).Perm
      (e.locations.map (fun x => (h, x))
        ++ (pairsOf idx).filter (fun hp => hp.1 ≠ h)) := by
  induction idx with
  | nil => simp [idxLookup] at hl
  | cons kv rest ih =>
    rw [List.map_cons, List.nodup_cons] at hnd
    obtain ⟨hknotin, hnd'⟩ := hnd
    rw [pairsOf_cons, List.filter_append]
    by_cases hk : kv.1 = h
    · rw [idxSet, if_pos hk, pairsOf_cons]
      have hnil : (kv.2.locations.map (fun p => (kv.1, p))).filter
          (fun hp => hp.1 ≠ h) = [] := by
        apply List.filter_eq_nil_iff.mpr
        intro a ha
        obtain ⟨x, hx, hxe⟩ := List.mem_map.mp ha
        simp [← hxe, hk]
      rw [hnil, List.nil_append,
          filter_pairs_of_not_key rest h (hk ▸ hknotin)]
    · rw [idxSet, if_neg hk, pairsOf_cons]
      rw [idxLookup, if_neg hk] at hl
      have hall : (kv.2.locations.map (fun p => (kv.1, p))).filter
          (fun hp => hp.1 ≠ h) = kv.2.locations.map (fun p => (kv.1, p)) := by
        apply List.filter_eq_self.mpr
        intro a ha
        obtain ⟨x, hx, hxe⟩ := List.mem_map.mp ha
        simp [← hxe, hk]
      rw [hall]
      exact (List.Perm.append_left _ (ih hnd' hl)).trans
        (List.perm_append_comm_assoc _ _ _)


/-- Pair list after adding a fresh entry. -/
theorem pairs_idxSet_none (idx : HashIndex) (h : Bytes) (e : IndexEntry)
    (hl : idxLookup idx h = none) :
    pairsOf (idxSet idx h e)
      = pairsOf idx ++ e.locations.map (fun x => (h, x)) := by
  induction idx with
  | nil => simp [idxSet, pairsOf_cons, pairsOf_nil]
  | cons kv rest ih =>
    by_cases hk : kv.1 = h
    · rw [idxLookup, if_pos hk] at hl
      cases hl
    · rw [idxLookup, if_neg hk] at hl
      rw [idxSet, if_neg hk, pairsOf_cons, pairsOf_cons, ih hl,
          List.append_assoc]


/-- With unique keys, every recorded pair is found by lookup. -/
theorem pairs_lookup_of_mem (idx : HashIndex) (h : Bytes) (x : String)
    (hnd : (idx.map Prod.fst).Nodup) (hm : (h, x) ∈ pairsOf idx) :
    ∃ e, idxLookup idx h = some e ∧ x ∈ e.locations := by
  induction idx with
  | nil => simp [pairsOf_nil] at hm
  | cons kv rest ih =>
    rw [List.map_cons, List.nodup_cons] at hnd
    obtain ⟨hknotin, hnd'⟩ := hnd
    rw [pairsOf_cons, List.mem_append] at hm
    rcases hm with hm | hm
    · obtain ⟨y, hy, hye⟩ := List.mem_map.mp hm
      have h1 : kv.1 = h := congrArg Prod.fst hye
      have h2 : y = x := congrArg Prod.snd hye
      refine ⟨kv.2, ?_, h2 ▸ hy⟩
      rw [idxLookup, if_pos h1]
    · have hkey : h ∈ rest.map Prod.fst := mem_keys_of_mem_pairs rest (h, x) hm
      have hk : kv.1 ≠ h := fun hc => hknotin (hc ▸ hkey)
      obtain ⟨e, he, hxe⟩ := ih hnd' hm
      refine ⟨e, ?_, hxe⟩
      rw [idxLookup, if_neg hk]
      exact he


/-- A well-formed index records no pair twice. -/
theorem pairsOf_nodup (idx : HashIndex) (hwf : indexWF idx) :
    (pairsOf idx).Nodup := by
  obtain ⟨hnd, hloc⟩ := hwf
  induction idx with
  | nil => simp [pairsOf_nil]
  | cons kv rest ih =>
    rw [List.map_cons, List.nodup_cons] at hnd
    obtain ⟨hknotin, hnd'⟩ := hnd
    rw [pairsOf_cons]
    apply List.Nodup.append
    · exact (hloc kv (by simp)).map (fun a b hab => congrArg Prod.snd hab)
    · exact ih hnd' (fun ke hke => hloc ke (List.mem_cons_of_mem _ hke))
    · intro a ha hb
      obtain ⟨y, hy, hye⟩ := List.mem_map.mp ha
      have h1 : a.1 = kv.1 := by rw [← hye]
      have h2 : a.1 ∈ rest.map Prod.fst := mem_keys_of_mem_pairs rest a hb
      exact hknotin (h1 ▸ h2)


/-- A successful lookup exhibits an entry of the index. -/
theorem mem_of_idxLookup (idx : HashIndex) (h : Bytes) (e : IndexEntry)
    (hl : idxLookup idx h = some e) : (h, e) ∈ idx := by
  induction idx with
  | nil => simp [idxLookup] at hl
  | cons kv rest ih =>
    by_cases hk : kv.1 = h
    · rw [idxLookup, if_pos hk] at hl
      cases hl
      exact List.mem_cons.mpr (Or.inl (by rw [← hk]))
    · rw [idxLookup, if_neg hk] at hl
      exact List.mem_cons.mpr (Or.inr (ih hl))


/-- A path with zero occurrences appears in no pair. -/
theorem no_pair_of_occ_zero (idx : HashIndex) (p : String)
    (hp0 : pathOccurrences idx p = 0) :
    ∀ hp ∈ pairsOf idx, hp.2 ≠ p := by
  intro hp hm
  have := List.countP_eq_zero.mp hp0 hp hm
  simpa using this


/-- The embedded `_add_to_hash_index` of an unrecorded path adds exactly one
pair. -/
theorem pairs_add_perm (idx : HashIndex) (h : Bytes) (p : String)
    (hnd : (idx.map Prod.fst).Nodup)
    (hp0 : pathOccurrences idx p = 0) :
    (pairsOf (add_to_hash_index idx h p)).Perm ((h, p) :: pairsOf idx) := by
  have hnop := no_pair_of_occ_zero idx p hp0
  unfold add_to_hash_index
  cases hl : idxLookup idx h with
  | none =>
    rw [pairs_idxSet_none idx h _ hl]
    exact List.perm_append_singleton _ _
  | some e =>
    cases e with
    | single q =>
      dsimp only
      by_cases hq : q = p
      · have hmem := mem_pairsOf_of_lookup idx h (.single q) hl q
          (by simp [IndexEntry.locations])
        exact absurd hq (hnop _ hmem)
      · rw [if_pos hq]
        refine (pairs_idxSet_some idx h (.multi [q, p]) _ hnd hl).trans ?_
        have hdec := pairs_decomp idx h (.single q) hnd hl
        simp only [IndexEntry.locations, List.map_cons, List.map_nil,
          List.cons_append, List.nil_append] at hdec ⊢
        exact ((List.Perm.swap _ _ _).trans
          (List.Perm.cons _ hdec.symm))
    | multi l =>
      dsimp only
      by_cases hpl : p ∈ l
      · have hmem := mem_pairsOf_of_lookup idx h (.multi l) hl p hpl
        exact absurd rfl (hnop _ hmem)
      · rw [if_pos hpl]
        refine (pairs_idxSet_some idx h (.multi (l ++ [p])) _ hnd hl).trans ?_
        have hdec := pairs_decomp idx h (.multi l) hnd hl
        simp only [IndexEntry.locations, List.map_append, List.map_cons,
          List.map_nil] at hdec ⊢
        refine List.Perm.trans ?_ (List.Perm.cons _ hdec.symm)
        rw [List.append_assoc]
        exact (List.perm_append_comm_assoc _ _ _).trans (List.Perm.refl _)


/-- A list is a permutation of a member consed onto its erasure. -/
theorem string_erase_perm (l : List String) (p : String) (hp : p ∈ l) :
    l.Perm (p :: l.erase p) := by
  induction l with
  | nil => simp at hp
  | cons q rest ih =>
    rw [List.erase_cons]
    by_cases hqp : q = p
    · rw [if_pos (by simp [hqp])]
      rw [hqp]
    · rw [if_neg (by simp [hqp])]
      have hpr : p ∈ rest := by
        rcases List.mem_cons.mp hp with hc | hc
        · exact absurd hc.symm hqp
        · exact hc
      exact ((ih hpr).cons q).trans (List.Perm.swap _ _ _)


/-- The embedded `_remove_from_hash_index` of a recorded pair removes
exactly that pair. -/
theorem pairs_remove_perm (idx : HashIndex) (h : Bytes) (p : String)
    (hwf : indexWF idx) (hmem : (h, p) ∈ pairsOf idx) :
    (pairsOf idx).Perm ((h, p) :: pairsOf (remove_from_hash_index idx h p)) := by
  obtain ⟨hnd, hloc⟩ := hwf
  obtain ⟨e, hl, hpe⟩ := pairs_lookup_of_mem idx h p hnd hmem
  unfold remove_from_hash_index
  rw [hl]
  cases e with
  | single q =>
    have hq : q = p := (by simpa [IndexEntry.locations] using hpe : p = q).symm
    dsimp only
    rw [if_pos hq]
    have hdec := pairs_decomp idx h (.single q) hnd hl
    simp only [IndexEntry.locations, List.map_cons, List.map_nil,
      List.cons_append, List.nil_append] at hdec
    rw [pairs_idxErase]
    rw [hq] at hdec
    exact hdec
  | multi l =>
    have hpl : p ∈ l := by simpa [IndexEntry.locations] using hpe
    dsimp only
    rw [if_pos hpl]
    have hlnd : l.Nodup := by
      have := hloc (h, .multi l) (mem_of_idxLookup idx h _ hl)
      simpa [IndexEntry.locations] using this
    have hdec := pairs_decomp idx h (.multi l) hnd hl
    simp only [IndexEntry.locations] at hdec
    have hlperm : (l.map (fun x => (h, x))).Perm
        ((h, p) :: (l.erase p).map (fun x => (h, x))) := by
      have := (string_erase_perm l p hpl).map (fun x => (h, x))
      simpa using this
    have hmain : (pairsOf idx).Perm
        ((h, p) :: ((l.erase p).map (fun x => (h, x))
          ++ (pairsOf idx).filter (fun hp => hp.1 ≠ h))) :=
      hdec.trans (hlperm.append_right _)
    refine hmain.trans (List.Perm.cons _ ?_)
    cases hle : l.erase p with
    | nil =>
      rw [pairs_idxErase]
      simp
    | cons q rest =>
      cases rest with
      | nil =>
        refine List.Perm.symm ?_
        refine (pairs_idxSet_some idx h (.single q) _ hnd hl).trans ?_
        simp [IndexEntry.locations]
      | cons q2 rest2 =>
        refine List.Perm.symm ?_
        refine (pairs_idxSet_some idx h (.multi (q :: q2 :: rest2)) _ hnd hl).trans ?_
        simp [IndexEntry.locations]


/-- Deletion preserves index well-formedness. -/
theorem wf_idxErase (idx : HashIndex) (h : Bytes) (hwf : indexWF idx) :
    indexWF (idxErase idx h) := by
  obtain ⟨hnd, hloc⟩ := hwf
  constructor
  · rw [keys_idxErase]
    exact hnd.filter _
  · intro ke hke
    exact hloc ke (mem_idxErase_sub idx h ke hke)


/-- Assignment of a duplicate-free entry preserves well-formedness. -/
theorem wf_idxSet (idx : HashIndex) (h : Bytes) (e : IndexEntry)
    (hwf : indexWF idx) (he : e.locations.Nodup) :
    indexWF (idxSet idx h e) := by
  obtain ⟨hnd, hloc⟩ := hwf
  constructor
  · cases hl : idxLookup idx h with
    | none =>
      rw [keys_idxSet_of_none idx h e hl]
      have hnotin := (idxLookup_eq_none_iff idx h).mp hl
      simp [List.nodup_append, hnd, hnotin]
    | some e0 =>
      rw [keys_idxSet_of_some idx h e e0 hl]
      exact hnd
  · intro ke hke
    rcases mem_idxSet_elim idx h e ke hke with hh | hh
    · rw [hh]
      exact he
    · exact hloc ke hh


/-- The embedded `_remove_from_hash_index` preserves well-formedness. -/
theorem wf_remove (idx : HashIndex) (h : Bytes) (p : String)
    (hwf : indexWF idx) : indexWF (remove_from_hash_index idx h p) := by
  unfold remove_from_hash_index
  cases hl : idxLookup idx h with
  | none => exact hwf
  | some e =>
    cases e with
    | single q =>
      dsimp only
      split_ifs with hq
      · exact wf_idxErase idx h hwf
      · exact hwf
    | multi l =>
      dsimp only
      have hlnd : l.Nodup := by
        have := hwf.2 (h, .multi l) (mem_of_idxLookup idx h _ hl)
        simpa [IndexEntry.locations] using this
      split_ifs with hpl
      · cases hle : l.erase p with
        | nil => exact wf_idxErase idx h hwf
        | cons q rest =>
          cases rest with
          | nil =>
            exact wf_idxSet idx h (.single q) hwf (by simp [IndexEntry.locations])
          | cons q2 rest2 =>
            refine wf_idxSet idx h (.multi (q :: q2 :: rest2)) hwf ?_
            have := hlnd.erase p
            rw [hle] at this
            simpa [IndexEntry.locations] using this
      · exact hwf


/-- Sorted insertion is a permutation of consing. -/
theorem insertPairByPath_perm (x : Bytes × String) (l : List (Bytes × String)) :
    (insertPairByPath x l).Perm (x :: l) := by
  induction l with
  | nil => exact List.Perm.refl _
  | cons y ys ih =>
    unfold insertPairByPath
    split_ifs with hlt
    · exact (ih.cons y).trans (List.Perm.swap _ _ _)
    · exact List.Perm.refl _


/-- The path sort permutes its input. -/
theorem sortPairsByPath_perm (l : List (Bytes × String)) :
    (sortPairsByPath l).Perm l := by
  induction l with
  | nil => exact List.Perm.refl _
  | cons z zs ih =>
    simp only [sortPairsByPath, List.foldr_cons] at *
    exact (insertPairByPath_perm z _).trans (ih.cons z)


/-- One dict-rebuild step appends exactly its pair and keeps the accumulator
well-formed, provided the pair is new to it. -/
theorem rebuildStep_spec (acc : HashIndex) (h : Bytes) (p : String)
    (hwf : indexWF acc) (hnm : (h, p) ∉ pairsOf acc) :
    (pairsOf (rebuildStep acc (h, p))).Perm (pairsOf acc ++ [(h, p)]) ∧
    indexWF (rebuildStep acc (h, p)) := by
  unfold rebuildStep
  dsimp only
  cases hl : idxLookup acc h with
  | none =>
    constructor
    · rw [pairs_idxSet_none acc h _ hl]
      simp [IndexEntry.locations]
    · exact wf_idxSet acc h (.single p) hwf (by simp [IndexEntry.locations])
  | some e =>
    obtain ⟨hnd, hloc⟩ := hwf
    cases e with
    | single q =>
      have hq : q ≠ p := fun hc => hnm
        (mem_pairsOf_of_lookup acc h (.single q) hl p
          (by simp [IndexEntry.locations, hc]))
      constructor
      · refine (pairs_idxSet_some acc h (.multi [q, p]) _ hnd hl).trans ?_
        have hdec := pairs_decomp acc h (.single q) hnd hl
        refine List.Perm.trans ?_ ((hdec.append_right _).symm)
        simp only [IndexEntry.locations, List.map_cons, List.map_nil,
          List.cons_append, List.nil_append]
        refine List.Perm.cons _ ?_
        exact (List.perm_append_singleton _ _).symm
      · exact wf_idxSet acc h (.multi [q, p]) ⟨hnd, hloc⟩
          (by simp [IndexEntry.locations, hq])
    | multi l =>
      have hpl : p ∉ l := fun hc => hnm
        (mem_pairsOf_of_lookup acc h (.multi l) hl p hc)
      dsimp only
      rw [if_pos hpl]
      have hlnd : l.Nodup := by
        simpa [IndexEntry.locations] using
          hloc (h, .multi l) (mem_of_idxLookup acc h _ hl)
      constructor
      · refine (pairs_idxSet_some acc h (.multi (l ++ [p])) _ hnd hl).trans ?_
        have hdec := pairs_decomp acc h (.multi l) hnd hl
        simp only [IndexEntry.locations, List.map_append, List.map_cons,
          List.map_nil] at hdec ⊢
        refine List.Perm.trans ?_ ((hdec.append_right _).symm)
        rw [List.append_assoc, List.append_assoc]
        exact List.Perm.append_left _ List.perm_append_comm
      · refine wf_idxSet acc h (.multi (l ++ [p])) ⟨hnd, hloc⟩ ?_
        simp [IndexEntry.locations, List.nodup_append, hlnd, hpl]


/-- The dict rebuild of a duplicate-free pair list yields a well-formed
index holding exactly those pairs beyond the accumulator own ones. -/
theorem rebuild_spec (L : List (Bytes × String)) (acc : HashIndex)
    (hwf : indexWF acc) (hnd : L.Nodup)
    (hdisj : ∀ hp ∈ L, hp ∉ pairsOf acc) :
    (pairsOf (L.foldl rebuildStep acc)).Perm (pairsOf acc ++ L) ∧
    indexWF (L.foldl rebuildStep acc) := by
  induction L generalizing acc with
  | nil =>
    rw [List.foldl_nil, List.append_nil]
    exact ⟨List.Perm.refl _, hwf⟩
  | cons z zs ih =>
    obtain ⟨zh, zp⟩ := z
    rw [List.foldl_cons]
    have hznm : (zh, zp) ∉ pairsOf acc := hdisj _ (by simp)
    obtain ⟨hstep, hstepwf⟩ := rebuildStep_spec acc zh zp hwf hznm
    have hzs_nd : zs.Nodup := (List.nodup_cons.mp hnd).2
    have hz_not_zs : (zh, zp) ∉ zs := (List.nodup_cons.mp hnd).1
    have hdisj2 : ∀ hp ∈ zs, hp ∉ pairsOf (rebuildStep acc (zh, zp)) := by
      intro hp hmem hmem2
      have hin : hp ∈ pairsOf acc ++ [(zh, zp)] := hstep.mem_iff.mp hmem2
      rcases List.mem_append.mp hin with hc | hc
      · exact hdisj hp (List.mem_cons_of_mem _ hmem) hc
      · simp only [List.mem_singleton] at hc
        exact hz_not_zs (hc ▸ hmem)
    obtain ⟨hrec, hrecwf⟩ := ih (rebuildStep acc (zh, zp)) hstepwf hzs_nd hdisj2
    refine ⟨?_, hrecwf⟩
    refine hrec.trans ?_
    refine (hstep.append_right zs).trans ?_
    rw [List.append_assoc]
    exact List.Perm.refl _


/-- The embedded `_update_hash_index` (add, then sorted rebuild) of an
unrecorded path adds exactly one pair and yields a well-formed index. -/
theorem pairs_update_spec (idx : HashIndex) (h : Bytes) (p : String)
    (hwf : indexWF idx) (hp0 : pathOccurrences idx p = 0) :
    (pairsOf (update_hash_index idx h p)).Perm ((h, p) :: pairsOf idx) ∧
    indexWF (update_hash_index idx h p) := by
  unfold update_hash_index sort_hash_index_by_filename rebuildFromPairs
  have haddperm := pairs_add_perm idx h p hwf.1 hp0
  have hsortperm : (sortPairsByPath (pairsOf (add_to_hash_index idx h p))).Perm
      ((h, p) :: pairsOf idx) :=
    (sortPairsByPath_perm _).trans haddperm
  have hnd : (sortPairsByPath (pairsOf (add_to_hash_index idx h p))).Nodup := by
    refine hsortperm.nodup_iff.mpr ?_
    refine List.nodup_cons.mpr ⟨?_, pairsOf_nodup idx hwf⟩
    exact fun hmem => absurd rfl (no_pair_of_occ_zero idx p hp0 _ hmem)
  have hdisj : ∀ hp2 ∈ sortPairsByPath (pairsOf (add_to_hash_index idx h p)),
      hp2 ∉ pairsOf ([] : HashIndex) := by
    intro hp2 hm hc
    simp [pairsOf_nil] at hc
  obtain ⟨hperm, hwf2⟩ := rebuild_spec _ [] ⟨by simp, by simp⟩ hnd hdisj
  refine ⟨?_, hwf2⟩
  refine hperm.trans ?_
  rw [pairsOf_nil, List.nil_append]
  exact hsortperm


/-- Directory write then read of the same path. -/
theorem dLookup_dSet_self {β : Type} (d : List (String × β)) (p : String)
    (v : β) : dLookup (dSet d p v) p = some v := by
  induction d with
  | nil => simp [dSet, dLookup]
  | cons kv rest ih =>
    by_cases hk : kv.1 = p
    · simp [dSet, hk, dLookup]
    · simp [dSet, hk, dLookup, ih]


/-- A directory write leaves other paths alone. -/
theorem dLookup_dSet_ne {β : Type} (d : List (String × β)) (p q : String)
    (v : β) (hne : q ≠ p) : dLookup (dSet d p v) q = dLookup d q := by
  induction d with
  | nil =>
    simp only [dSet, dLookup]
    rw [if_neg (fun hc : p = q => hne hc.symm)]
  | cons kv rest ih =>
    simp only [dSet]
    by_cases hk : kv.1 = p
    · rw [if_pos hk]
      simp only [dLookup]
      rw [if_neg (fun hc : p = q => hne hc.symm),
          if_neg (fun hc : kv.1 = q => hne ((hk ▸ hc).symm))]
    · rw [if_neg hk]
      simp only [dLookup]
      by_cases hkk : kv.1 = q
      · rw [if_pos hkk, if_pos hkk]
      · rw [if_neg hkk, if_neg hkk]
        exact ih


/-- The storage invariant is preserved by every overwrite-disciplined
`save_with_metadata` call with no injected I/O failure: validation
failures and duplicate short-circuits leave the state unchanged; a write
to a fresh path records exactly one new pair; a force overwrite first
removes the old content single pair for the target and then records
exactly one new pair. -/
theorem storeInv_applySave (s : StorageState) (c : SaveCall)
    (hInv : storeInv s) (hgood : goodCall s c = true) :
    storeInv (applySave s c) := by
  obtain ⟨hwf, hsound, hcov⟩ := hInv
  unfold applySave save_with_metadata
  by_cases hv : validate_data_type c.data_type = true
  case neg =>
    rw [if_pos (by simp [hv])]
    exact ⟨hwf, hsound, hcov⟩
  case pos =>
  rw [if_neg (by simp [hv])]
  by_cases hdup : (¬ c.force_overwrite = true ∧
      check_duplicates s (sha256_hexdigest c.data) = true)
  · rw [if_pos hdup]
    exact ⟨hwf, hsound, hcov⟩
  · rw [if_neg hdup]
    dsimp only
    by_cases hex : (dLookup s.disk (canonicalFilename c.data_type c.year c.period)).isSome = true
    · by_cases hforce : c.force_overwrite = true
      · -- force overwrite of an existing file
        rw [if_pos ⟨hex, hforce⟩]
        obtain ⟨b0, hb0⟩ := Option.isSome_iff_exists.mp hex
        have hoccp : pathOccurrences s.hash_index
            (canonicalFilename c.data_type c.year c.period) = 1 :=
          hcov _ hex
        have hponly : ∀ hp2 ∈ pairsOf s.hash_index,
            hp2.2 = canonicalFilename c.data_type c.year c.period →
            hp2 = (sha256_hexdigest b0, canonicalFilename c.data_type c.year c.period) := by
          intro hp2 hm2 hp2p
          obtain ⟨b, hb, he⟩ := hsound hp2 hm2
          rw [hp2p] at hb
          rw [hb0] at hb
          cases hb
          have : hp2 = (hp2.1, hp2.2) := rfl
          rw [this, he, hp2p]
        have hmem : (sha256_hexdigest b0,
            canonicalFilename c.data_type c.year c.period) ∈ pairsOf s.hash_index := by
          have hpos : 0 < pathOccurrences s.hash_index
              (canonicalFilename c.data_type c.year c.period) := by omega
          obtain ⟨a, ha, hpa⟩ := List.countP_pos_iff.mp hpos
          have : a = (sha256_hexdigest b0, canonicalFilename c.data_type c.year c.period) :=
            hponly a ha (by simpa using hpa)
          exact this ▸ ha
        have hgetd : sha256_hexdigest
            ((dLookup s.disk (canonicalFilename c.data_type c.year c.period)).getD [])
            = sha256_hexdigest b0 := by rw [hb0]; rfl
        rw [hgetd]
        have hremperm := pairs_remove_perm s.hash_index (sha256_hexdigest b0)
          (canonicalFilename c.data_type c.year c.period) ⟨hwf.1, hwf.2⟩ hmem
        have hwfrem := wf_remove s.hash_index (sha256_hexdigest b0)
          (canonicalFilename c.data_type c.year c.period) ⟨hwf.1, hwf.2⟩
        have hocc0rem : pathOccurrences
            (remove_from_hash_index s.hash_index (sha256_hexdigest b0)
              (canonicalFilename c.data_type c.year c.period))
            (canonicalFilename c.data_type c.year c.period) = 0 := by
          have hc := hremperm.countP_eq
            (fun hp => hp.2 = canonicalFilename c.data_type c.year c.period)
          rw [List.countP_cons, if_pos (by simp)] at hc
          unfold pathOccurrences at hoccp ⊢
          omega
        obtain ⟨hperm, hwf2⟩ := pairs_update_spec _ (sha256_hexdigest c.data)
          (canonicalFilename c.data_type c.year c.period) hwfrem hocc0rem
        refine ⟨hwf2, ?_, ?_⟩
        · -- soundness of pairs against the overwritten disk
          intro hp2 hm2
          dsimp only at hm2 ⊢
          have hin := hperm.mem_iff.mp hm2
          rcases List.mem_cons.mp hin with hc | hc
          · refine ⟨c.data, ?_, by rw [hc]⟩
            rw [hc]
            exact dLookup_dSet_self _ _ _
          · have hne : hp2.2 ≠ canonicalFilename c.data_type c.year c.period := by
              intro hpp
              have hp2mem : hp2 ∈ pairsOf s.hash_index :=
                hremperm.mem_iff.mpr (List.mem_cons_of_mem _ hc)
              have := hponly hp2 hp2mem hpp
              rw [this] at hc
              have : 0 < pathOccurrences
                  (remove_from_hash_index s.hash_index (sha256_hexdigest b0)
                    (canonicalFilename c.data_type c.year c.period))
                  (canonicalFilename c.data_type c.year c.period) :=
                List.countP_pos_iff.mpr ⟨_, hc, by simp⟩
              omega
            have hp2mem : hp2 ∈ pairsOf s.hash_index :=
              hremperm.mem_iff.mpr (List.mem_cons_of_mem _ hc)
            obtain ⟨b, hb, he⟩ := hsound hp2 hp2mem
            exact ⟨b, by rw [dLookup_dSet_ne _ _ _ _ hne]; exact hb, he⟩
        · -- disk covered exactly once
          intro q hq
          dsimp only at hq ⊢
          have hcnt := hperm.countP_eq (fun hp => hp.2 = q)
          unfold pathOccurrences
          rw [hcnt, List.countP_cons]
          by_cases hqp : q = canonicalFilename c.data_type c.year c.period
          · unfold pathOccurrences at hocc0rem
            rw [hqp, if_pos (by simp), hocc0rem]
          · have hqne : canonicalFilename c.data_type c.year c.period ≠ q :=
              fun hc2 => hqp hc2.symm
            have hqdisk : (dLookup s.disk q).isSome = true := by
              rw [dLookup_dSet_ne _ _ _ _ (fun hc2 => hqp hc2)] at hq
              exact hq
            have hremcnt := hremperm.countP_eq (fun hp => hp.2 = q)
            rw [List.countP_cons] at hremcnt
            have hold := hcov q hqdisk
            unfold pathOccurrences at hold
            simp only [decide_eq_true_eq] at hremcnt ⊢
            omega
      · -- existing target without force: the duplicate guard must have fired
        exfalso
        unfold goodCall at hgood
        rw [Bool.or_eq_true, Bool.or_eq_true] at hgood
        rcases hgood with (hg | hg) | hg
        · exact hforce hg
        · rw [Option.isNone_iff_eq_none] at hg
          unfold targetPath at hg
          rw [hg] at hex
          simp at hex
        · exact hdup ⟨by simpa using hforce, hg⟩
    · -- fresh target path
      rw [if_neg (by simp [hex])]
      have hocc0 : pathOccurrences s.hash_index
          (canonicalFilename c.data_type c.year c.period) = 0 := by
        apply List.countP_eq_zero.mpr
        intro a ha hpa
        obtain ⟨b, hb, he⟩ := hsound a ha
        simp only [decide_eq_true_eq] at hpa
        rw [hpa] at hb
        rw [hb] at hex
        simp at hex
      obtain ⟨hperm, hwf2⟩ := pairs_update_spec s.hash_index
        (sha256_hexdigest c.data)
        (canonicalFilename c.data_type c.year c.period) ⟨hwf.1, hwf.2⟩ hocc0
      refine ⟨hwf2, ?_, ?_⟩
      · intro hp2 hm2
        dsimp only at hm2 ⊢
        have hin := hperm.mem_iff.mp hm2
        rcases List.mem_cons.mp hin with hc | hc
        · refine ⟨c.data, ?_, by rw [hc]⟩
          rw [hc]
          exact dLookup_dSet_self _ _ _
        · have hne : hp2.2 ≠ canonicalFilename c.data_type c.year c.period := by
            intro hpp
            exact absurd hpp (no_pair_of_occ_zero _ _ hocc0 hp2 hc)
          obtain ⟨b, hb, he⟩ := hsound hp2 hc
          exact ⟨b, by rw [dLookup_dSet_ne _ _ _ _ hne]; exact hb, he⟩
      · intro q hq
        dsimp only at hq ⊢
        have hcnt := hperm.countP_eq (fun hp => hp.2 = q)
        unfold pathOccurrences
        rw [hcnt, List.countP_cons]
        by_cases hqp : q = canonicalFilename c.data_type c.year c.period
        · unfold pathOccurrences at hocc0
          rw [hqp, if_pos (by simp), hocc0]
        · have hqdisk : (dLookup s.disk q).isSome = true := by
            rw [dLookup_dSet_ne _ _ _ _ (fun hc2 => hqp hc2)] at hq
            exact hq
          have hold := hcov q hqdisk
          unfold pathOccurrences at hold
          have hcond : ¬ ((decide (canonicalFilename c.data_type c.year c.period = q)) = true) := by
            simp only [decide_eq_true_eq]
            exact fun hc => hqp hc.symm
          rw [if_neg hcond]
          omega


/-- A fresh store satisfies the storage invariant. -/
theorem storeInv_empty : storeInv emptyStore := by
  refine ⟨⟨by decide, by decide⟩, ?_, ?_⟩
  · intro hp hm
    simp [emptyStore, pairsOf_nil] at hm
  · intro p hq
    simp [emptyStore, dLookup] at hq


/-- The storage invariant holds after every overwrite-disciplined trace of
saves. -/
theorem storeInv_runSaves (cs : List SaveCall) (s : StorageState)
    (hInv : storeInv s) (hgood : goodTrace s cs = true) :
    storeInv (runSaves s cs) := by
  induction cs generalizing s with
  | nil => exact hInv
  | cons c rest ih =>
    rw [goodTrace, Bool.and_eq_true] at hgood
    have hstep := storeInv_applySave s c hInv hgood.1
    simpa [runSaves, List.foldl_cons] using ih (applySave s c) hstep hgood.2


/-- C2 counterexample: starting from an empty store, two successful non-
force saves of different payloads under the same (series, year, period)
key leave the written path t_2025_01.csv recorded twice in the hash
index, once under each payload digest: the second save overwrites the
file but, without force_overwrite, never removes the old digest entry,
so the claimed exactly-once invariant fails. -/
theorem c2_uniqueness_counterexample :
    (saveResultOf emptyStore
      { data := [0], data_type := "t", year := 2025, period := 1 }).success = true ∧
    (saveResultOf (applySave emptyStore
        { data := [0], data_type := "t", year := 2025, period := 1 })
      { data := [1], data_type := "t", year := 2025, period := 1 }).success = true ∧
    pathOccurrences
      (applySave (applySave emptyStore
          { data := [0], data_type := "t", year := 2025, period := 1 })
        { data := [1], data_type := "t", year := 2025, period := 1 }).hash_index
      "t_2025_01.csv" = 2 :=
  ⟨by decide, by decide, by decide⟩

/-- C2 amended: after any sequence of successful `save_with_metadata`
calls starting from an empty store **in which every call that writes over
an already-existing data file uses `force_overwrite`** (each call forces,
or targets a path not yet on disk, or is deduplicated away), every data
file path on disk appears exactly once across all values of the hash
index.  The restriction is exactly what the counterexample forces: an
unforced overwrite of existing content is the one path that duplicates an
index location. -/
theorem c2_uniqueness_amended (cs : List SaveCall)
    (hgood : goodTrace emptyStore cs = true) :
    ∀ p, (dLookup (runSaves emptyStore cs).disk p).isSome = true →
      pathOccurrences (runSaves emptyStore cs).hash_index p = 1 :=
  (storeInv_runSaves cs emptyStore storeInv_empty hgood).2.2

/-- Witness for C2 amended: a three-call disciplined trace (fresh write,
deduplicated write, force overwrite) leaves the target path recorded
exactly once. -/
theorem c2_uniqueness_amended_witness :
    pathOccurrences
      (runSaves emptyStore
        [{ data := [0], data_type := "t", year := 2025, period := 1 },
         { data := [0], data_type := "t", year := 2025, period := 2 },
         { data := [5], data_type := "t", year := 2025, period := 1,
           force_overwrite := true }]).hash_index
      "t_2025_01.csv" = 1 :=
  c2_uniqueness_amended
    [{ data := [0], data_type := "t", year := 2025, period := 1 },
     { data := [0], data_type := "t", year := 2025, period := 2 },
     { data := [5], data_type := "t", year := 2025, period := 1,
       force_overwrite := true }]
    (by decide) "t_2025_01.csv" (by decide)
